import Mathlib

/-!
Shallow embedding of the MachineDeFi revenue-sharing contract
(`contract MachineDeFi` and `contract MachineToken`, Solidity ^0.8.28).

Modelling conventions:
* `uint256` values become `Nat`.  Solidity 0.8 arithmetic is checked
  (it reverts instead of wrapping), so on every non-reverting path the
  numbers computed agree with unbounded `Nat` arithmetic; the subtraction
  `msg.value - platformFee` never underflows because
  `platformFee = msg.value * feeBps / 10000 ≤ msg.value`.
* `address` becomes `Nat`, with `0` playing `address(0)`.
* Each external function becomes a function
  `State → args → Except Err (State × outputs)`.  A Solidity `revert`
  rolls back every storage write of the transaction, so an `.error`
  result carries no state: the caller's state is retained unchanged.
* Outbound native-value transfers (`.call{value: …}("")`) are recorded in
  an output list of `(recipient, amount)` pairs; the environment is
  assumed to accept them (no reverting recipients are modelled), which is
  the only behaviour the reentrancy guard and the `require(success)`
  checks permit to complete.
* Solidity mappings are total functions with zero/false defaults,
  matching EVM storage semantics.
-/

namespace MachineDeFi

/-- Addresses, with 0 for `address(0)`. -/
abbrev Addr := Nat

/-- One outbound native-value transfer: recipient and amount (wei). -/
abbrev Send := Addr × Nat

/-- The custom errors of `MachineDeFi`, the OpenZeppelin guard errors that
its modifiers can raise, and the `MachineToken`/ERC20 errors. -/
inductive Err where
  | MachineNotFound
  | UnauthorizedOperator
  | MachineNotActive
  | InsufficientRevenue
  | NoSharesOwned
  | AlreadyClaimed
  | InvalidMachineId
  | ZeroAddress
  | InvalidFee
  | EnforcedPause
  | ExpectedPause
  | OwnableUnauthorizedAccount
  | ERC20InvalidReceiver
  | ERC20InvalidSender
  | ERC20InsufficientBalance
deriving DecidableEq

/-- `struct Machine`. -/
structure Machine where
  machineId : Nat
  operator : Addr
  name : String
  metadataURI : String
  totalShares : Nat
  totalRevenue : Nat
  lastRevenueShare : Nat
  creationTimestamp : Nat
  active : Bool
deriving DecidableEq

/-- The all-zero `Machine`, i.e. the default value of the
`machines` mapping for an unregistered id. -/
def Machine.empty : Machine :=
  { machineId := 0, operator := 0, name := "", metadataURI := "",
    totalShares := 0, totalRevenue := 0, lastRevenueShare := 0,
    creationTimestamp := 0, active := false }

/-- `struct ShareSnapshot`. -/
structure ShareSnapshot where
  snapshotId : Nat
  totalShares : Nat
  revenueAmount : Nat
  distributedAmount : Nat
  completed : Bool
deriving DecidableEq

/-- The all-zero `ShareSnapshot` (mapping default). -/
def ShareSnapshot.empty : ShareSnapshot :=
  { snapshotId := 0, totalShares := 0, revenueAmount := 0,
    distributedAmount := 0, completed := false }

/-- `contract MachineToken is ERC20, Ownable`: the per-machine ownership
token.  `owner` is the Ownable owner, which registration sets to the
MachineDeFi contract itself. -/
structure MachineToken where
  machineId : Nat
  owner : Addr
  totalSupply : Nat
  balances : Addr → Nat

/-- Default value of the `tokens` map for a machine that has no token. -/
def MachineToken.empty : MachineToken :=
  { machineId := 0, owner := 0, totalSupply := 0, balances := fun _ => 0 }

/-- `ERC20.balanceOf`. -/
def MachineToken.balanceOf (t : MachineToken) (a : Addr) : Nat :=
  t.balances a

/-- `MachineToken.mint`, guarded by `onlyOwner`, then `ERC20._mint`
(which rejects the zero receiver). -/
def MachineToken.mint (t : MachineToken) (caller recipient : Addr) (amount : Nat) :
    Except Err MachineToken :=
  if caller ≠ t.owner then .error .OwnableUnauthorizedAccount
  else if recipient = 0 then .error .ERC20InvalidReceiver
  else
    let balances' := fun a =>
      if a = recipient then t.balances a + amount else t.balances a
    .ok { t with totalSupply := t.totalSupply + amount, balances := balances' }

/-- `MachineToken.burn`, guarded by `onlyOwner`, then `ERC20._burn`
(which rejects the zero sender and insufficient balances). -/
def MachineToken.burn (t : MachineToken) (caller from_ : Addr) (amount : Nat) :
    Except Err MachineToken :=
  if caller ≠ t.owner then .error .OwnableUnauthorizedAccount
  else if from_ = 0 then .error .ERC20InvalidSender
  else if t.balances from_ < amount then .error .ERC20InsufficientBalance
  else
    let balances' := fun a =>
      if a = from_ then t.balances a - amount else t.balances a
    .ok { t with totalSupply := t.totalSupply - amount, balances := balances' }

/-- The full storage of one deployed `MachineDeFi` contract, together with
the token contracts it has deployed.  `self` is the contract's own address
(the Ownable owner of every `MachineToken` it creates); `owner` is the
platform owner from `Ownable`. -/
structure State where
  self : Addr
  owner : Addr
  paused : Bool
  machines : Nat → Machine
  tokens : Nat → MachineToken
  shareSnapshots : Nat → Nat → ShareSnapshot
  snapshotCounters : Nat → Nat
  balanceSnapshots : Nat → Nat → Addr → Nat
  snapshotBlockNumbers : Nat → Nat → Nat
  revenueClaimed : Nat → Nat → Addr → Bool
  machineIdCounter : Nat
  platformFeeBps : Nat
  minRevenueThreshold : Nat
  operatorMachines : Addr → List Nat

/-- The state right after the constructor runs: empty storage,
`platformFeeBps = 250`, `minRevenueThreshold = 0.01 ether`. -/
def State.init (self owner : Addr) : State :=
  { self := self, owner := owner, paused := false,
    machines := fun _ => Machine.empty,
    tokens := fun _ => MachineToken.empty,
    shareSnapshots := fun _ _ => ShareSnapshot.empty,
    snapshotCounters := fun _ => 0,
    balanceSnapshots := fun _ _ _ => 0,
    snapshotBlockNumbers := fun _ _ => 0,
    revenueClaimed := fun _ _ _ => false,
    machineIdCounter := 0,
    platformFeeBps := 250,
    minRevenueThreshold := 10000000000000000,
    operatorMachines := fun _ => [] }

/-- State reached by a call outcome: a revert (`.error`) rolls the
transaction back, so the pre-state is kept. -/
def afterOr {α : Type} (s : State) : Except Err (State × α) → State
  | .ok p => p.1
  | .error _ => s

/-- The transfers a call performed (none if it reverted). -/
def okSends (r : Except Err (State × List Send)) : List Send :=
  match r with
  | .ok p => p.2
  | .error _ => []

/-- The machine id a `registerMachine` call returned (0 if it reverted). -/
def okId (r : Except Err (State × Nat)) : Nat :=
  match r with
  | .ok p => p.2
  | .error _ => 0

/-- `registerMachine(operator, name, metadataURI, totalShares)`,
modifier `whenNotPaused`.  Deploys a `MachineToken` owned by the ledger
and mints the full supply to the operator. -/
def registerMachine (s : State) (_caller operator : Addr)
    (name metadataURI : String) (totalShares now : Nat) :
    Except Err (State × Nat) :=
  if s.paused then .error .EnforcedPause
  else if operator = 0 then .error .ZeroAddress
  else if totalShares = 0 then .error .InvalidMachineId
  else
    let machineId := s.machineIdCounter + 1
    let token0 : MachineToken :=
      { machineId := machineId, owner := s.self, totalSupply := 0,
        balances := fun _ => 0 }
    match MachineToken.mint token0 s.self operator totalShares with
    | .error e => .error e
    | .ok token =>
      let newMachine : Machine :=
        { machineId := machineId, operator := operator, name := name,
          metadataURI := metadataURI, totalShares := totalShares,
          totalRevenue := 0, lastRevenueShare := 0,
          creationTimestamp := now, active := true }
      let machines' := fun m => if m = machineId then newMachine else s.machines m
      let tokens' := fun m => if m = machineId then token else s.tokens m
      let opMachines' := fun a =>
        if a = operator then s.operatorMachines a ++ [machineId]
        else s.operatorMachines a
      .ok ({ s with
        machineIdCounter := machineId,
        machines := machines',
        tokens := tokens',
        operatorMachines := opMachines' },
        machineId)

/-- `reportRevenue(machineId)` with `msg.value = value`, modifiers in
declaration order `machineExists`, `onlyMachineOperator`, `whenNotPaused`,
`nonReentrant`.  Routes the platform fee to the owner and creates the next
snapshot, eagerly caching only the operator's balance. -/
def reportRevenue (s : State) (caller : Addr)
    (machineId value now blockNum : Nat) :
    Except Err (State × List Send) :=
  if (s.machines machineId).operator = 0 then .error .MachineNotFound
  else if (s.machines machineId).operator ≠ caller then .error .UnauthorizedOperator
  else if s.paused then .error .EnforcedPause
  else
    let machine := s.machines machineId
    if !machine.active then .error .MachineNotActive
    else if value < s.minRevenueThreshold then .error .InsufficientRevenue
    else
      let platformFee := value * s.platformFeeBps / 10000
      let revenueToDistribute := value - platformFee
      let sends : List Send := if 0 < platformFee then [(s.owner, platformFee)] else []
      let snapshotId := s.snapshotCounters machineId + 1
      let token := s.tokens machineId
      let totalShares := token.totalSupply
      let operatorBalance := token.balanceOf machine.operator
      let machine' : Machine :=
        { machine with
          totalRevenue := machine.totalRevenue + value,
          lastRevenueShare := now }
      let newSnapshot : ShareSnapshot :=
        { snapshotId := snapshotId, totalShares := totalShares,
          revenueAmount := revenueToDistribute, distributedAmount := 0,
          completed := false }
      let machines' := fun m => if m = machineId then machine' else s.machines m
      let counters' := fun m =>
        if m = machineId then snapshotId else s.snapshotCounters m
      let blockNums' := fun m sid =>
        if m = machineId ∧ sid = snapshotId then blockNum
        else s.snapshotBlockNumbers m sid
      let snaps' := fun m sid =>
        if m = machineId ∧ sid = snapshotId then newSnapshot
        else s.shareSnapshots m sid
      let balSnaps' := fun m sid u =>
        if m = machineId ∧ sid = snapshotId ∧ u = machine.operator ∧
            0 < operatorBalance then operatorBalance
        else s.balanceSnapshots m sid u
      .ok ({ s with
        machines := machines',
        snapshotCounters := counters',
        snapshotBlockNumbers := blockNums',
        shareSnapshots := snaps',
        balanceSnapshots := balSnaps' },
        sends)

/-- The lazy balance write shared by `claimRevenue` and
`batchClaimRevenue`: `balanceSnapshots[machineId][snapshotId][user] = v`. -/
def cacheWrite (s : State) (machineId snapshotId : Nat) (user : Addr) (v : Nat) :
    State :=
  let balSnaps' := fun m sid u =>
    if m = machineId ∧ sid = snapshotId ∧ u = user then v
    else s.balanceSnapshots m sid u
  { s with balanceSnapshots := balSnaps' }

/-- The claim bookkeeping shared by `claimRevenue` and
`batchClaimRevenue`: mark the triple claimed, add `userRevenue` to the
snapshot's `distributedAmount`, and set `completed` once
`distributedAmount ≥ revenueAmount`. -/
def applyClaimMark (s : State) (machineId snapshotId : Nat) (user : Addr)
    (userRevenue : Nat) : State :=
  let sn := s.shareSnapshots machineId snapshotId
  let completed' :=
    if sn.revenueAmount ≤ sn.distributedAmount + userRevenue then true
    else sn.completed
  let sn' : ShareSnapshot :=
    { sn with
      distributedAmount := sn.distributedAmount + userRevenue,
      completed := completed' }
  let claimed' := fun m sid u =>
    if m = machineId ∧ sid = snapshotId ∧ u = user then true
    else s.revenueClaimed m sid u
  let snaps' := fun m sid =>
    if m = machineId ∧ sid = snapshotId then sn' else s.shareSnapshots m sid
  { s with revenueClaimed := claimed', shareSnapshots := snaps' }

/-- The claimant's balance as `claimRevenue` resolves it: the cached
balance-at-snapshot if one is stored, otherwise the token's current
balance. -/
def resolvedShares (s : State) (machineId snapshotId : Nat) (user : Addr) : Nat :=
  if s.balanceSnapshots machineId snapshotId user = 0
  then (s.tokens machineId).balanceOf user
  else s.balanceSnapshots machineId snapshotId user

/-- `claimRevenue(machineId, snapshotId)`, modifiers `machineExists`,
`whenNotPaused`, `nonReentrant`. -/
def claimRevenue (s : State) (caller : Addr) (machineId snapshotId : Nat) :
    Except Err (State × List Send) :=
  if (s.machines machineId).operator = 0 then .error .MachineNotFound
  else if s.paused then .error .EnforcedPause
  else
    let snapshot := s.shareSnapshots machineId snapshotId
    if snapshot.revenueAmount = 0 then .error .InvalidMachineId
    else if s.revenueClaimed machineId snapshotId caller then .error .AlreadyClaimed
    else
      let stored := s.balanceSnapshots machineId snapshotId caller
      let userShares := if stored = 0 then (s.tokens machineId).balanceOf caller
        else stored
      let s1 := if stored = 0 ∧ 0 < userShares
        then cacheWrite s machineId snapshotId caller userShares else s
      if userShares = 0 then .error .NoSharesOwned
      else
        let userRevenue := snapshot.revenueAmount * userShares / snapshot.totalShares
        if userRevenue = 0 then .error .InsufficientRevenue
        else
          .ok (applyClaimMark s1 machineId snapshotId caller userRevenue,
            [(caller, userRevenue)])

/-- The loop body of `batchClaimRevenue`, threading the state and the
accumulated `totalClaimed`.  Entry checks appear in the source order:
claimed-marker first, then missing snapshot, then zero shares, then zero
payout. -/
def batchClaimLoop (caller : Addr) (machineId : Nat) :
    State → List Nat → Nat → State × Nat
  | s, [], total => (s, total)
  | s, snapshotId :: rest, total =>
    if s.revenueClaimed machineId snapshotId caller then
      batchClaimLoop caller machineId s rest total
    else
      let snapshot := s.shareSnapshots machineId snapshotId
      if snapshot.revenueAmount = 0 then
        batchClaimLoop caller machineId s rest total
      else
        let stored := s.balanceSnapshots machineId snapshotId caller
        let userShares := if stored = 0 then (s.tokens machineId).balanceOf caller
          else stored
        let s1 := if stored = 0 ∧ 0 < userShares
          then cacheWrite s machineId snapshotId caller userShares else s
        if userShares = 0 then batchClaimLoop caller machineId s1 rest total
        else
          let userRevenue :=
            snapshot.revenueAmount * userShares / snapshot.totalShares
          if userRevenue = 0 then batchClaimLoop caller machineId s1 rest total
          else
            batchClaimLoop caller machineId
              (applyClaimMark s1 machineId snapshotId caller userRevenue)
              rest (total + userRevenue)

/-- `batchClaimRevenue(machineId, snapshotIds)`, modifiers
`machineExists`, `whenNotPaused`, `nonReentrant`.  One outbound transfer
of the accumulated total, performed only when it is positive. -/
def batchClaimRevenue (s : State) (caller : Addr) (machineId : Nat)
    (snapshotIds : List Nat) : Except Err (State × List Send) :=
  if (s.machines machineId).operator = 0 then .error .MachineNotFound
  else if s.paused then .error .EnforcedPause
  else
    let r := batchClaimLoop caller machineId s snapshotIds 0
    if 0 < r.2 then .ok (r.1, [(caller, r.2)]) else .ok (r.1, [])

/-- `updateMachineMetadata`, modifiers `machineExists`,
`onlyMachineOperator` (no pause guard). -/
def updateMachineMetadata (s : State) (caller : Addr) (machineId : Nat)
    (newMetadataURI : String) : Except Err State :=
  if (s.machines machineId).operator = 0 then .error .MachineNotFound
  else if (s.machines machineId).operator ≠ caller then .error .UnauthorizedOperator
  else
    let machine' := { s.machines machineId with metadataURI := newMetadataURI }
    let machines' := fun m => if m = machineId then machine' else s.machines m
    .ok { s with machines := machines' }

/-- `setMachineStatus`, modifiers `machineExists`, `onlyMachineOperator`
(no pause guard). -/
def setMachineStatus (s : State) (caller : Addr) (machineId : Nat)
    (active : Bool) : Except Err State :=
  if (s.machines machineId).operator = 0 then .error .MachineNotFound
  else if (s.machines machineId).operator ≠ caller then .error .UnauthorizedOperator
  else
    let machine' := { s.machines machineId with active := active }
    let machines' := fun m => if m = machineId then machine' else s.machines m
    .ok { s with machines := machines' }

/-- `transferOperator`, modifiers `machineExists`, `onlyMachineOperator`
(no pause guard); rejects the zero address. -/
def transferOperator (s : State) (caller : Addr) (machineId : Nat)
    (newOperator : Addr) : Except Err State :=
  if (s.machines machineId).operator = 0 then .error .MachineNotFound
  else if (s.machines machineId).operator ≠ caller then .error .UnauthorizedOperator
  else if newOperator = 0 then .error .ZeroAddress
  else
    let machine' := { s.machines machineId with operator := newOperator }
    let machines' := fun m => if m = machineId then machine' else s.machines m
    .ok { s with machines := machines' }

/-- `setPlatformFee`, `onlyOwner`, capped at 1000 bps. -/
def setPlatformFee (s : State) (caller : Addr) (newFeeBps : Nat) :
    Except Err State :=
  if caller ≠ s.owner then .error .OwnableUnauthorizedAccount
  else if 1000 < newFeeBps then .error .InvalidFee
  else .ok { s with platformFeeBps := newFeeBps }

/-- `setMinRevenueThreshold`, `onlyOwner`. -/
def setMinRevenueThreshold (s : State) (caller : Addr) (newThreshold : Nat) :
    Except Err State :=
  if caller ≠ s.owner then .error .OwnableUnauthorizedAccount
  else .ok { s with minRevenueThreshold := newThreshold }

/-- `pause`, `onlyOwner`; `Pausable._pause` itself requires the contract
to be unpaused. -/
def pause (s : State) (caller : Addr) : Except Err State :=
  if caller ≠ s.owner then .error .OwnableUnauthorizedAccount
  else if s.paused then .error .EnforcedPause
  else .ok { s with paused := true }

/-- `unpause`, `onlyOwner`; `Pausable._unpause` requires the contract to
be paused. -/
def unpause (s : State) (caller : Addr) : Except Err State :=
  if caller ≠ s.owner then .error .OwnableUnauthorizedAccount
  else if !s.paused then .error .ExpectedPause
  else .ok { s with paused := false }

/-- One successful transaction of the ledger: any public state-mutating
entry point of `MachineDeFi`, invoked by an arbitrary caller with
arbitrary arguments.  Holder-initiated token transfers are external to
the ledger (spec §4.2) and are deliberately not steps of this relation. -/
inductive LedgerStep : State → State → Prop where
  | register {s s' : State} (caller operator : Addr) (name uri : String)
      (totalShares now id : Nat)
      (h : registerMachine s caller operator name uri totalShares now = .ok (s', id)) :
      LedgerStep s s'
  | report {s s' : State} (caller : Addr) (machineId value now blockNum : Nat)
      (l : List Send)
      (h : reportRevenue s caller machineId value now blockNum = .ok (s', l)) :
      LedgerStep s s'
  | claim {s s' : State} (caller : Addr) (machineId snapshotId : Nat)
      (l : List Send)
      (h : claimRevenue s caller machineId snapshotId = .ok (s', l)) :
      LedgerStep s s'
  | batch {s s' : State} (caller : Addr) (machineId : Nat) (ids : List Nat)
      (l : List Send)
      (h : batchClaimRevenue s caller machineId ids = .ok (s', l)) :
      LedgerStep s s'
  | metadata {s s' : State} (caller : Addr) (machineId : Nat) (uri : String)
      (h : updateMachineMetadata s caller machineId uri = .ok s') :
      LedgerStep s s'
  | status {s s' : State} (caller : Addr) (machineId : Nat) (active : Bool)
      (h : setMachineStatus s caller machineId active = .ok s') :
      LedgerStep s s'
  | transferOp {s s' : State} (caller : Addr) (machineId : Nat) (newOperator : Addr)
      (h : transferOperator s caller machineId newOperator = .ok s') :
      LedgerStep s s'
  | setFee {s s' : State} (caller : Addr) (newFeeBps : Nat)
      (h : setPlatformFee s caller newFeeBps = .ok s') :
      LedgerStep s s'
  | setThreshold {s s' : State} (caller : Addr) (newThreshold : Nat)
      (h : setMinRevenueThreshold s caller newThreshold = .ok s') :
      LedgerStep s s'
  | doPause {s s' : State} (caller : Addr)
      (h : pause s caller = .ok s') : LedgerStep s s'
  | doUnpause {s s' : State} (caller : Addr)
      (h : unpause s caller = .ok s') : LedgerStep s s'

/-- States reachable from a freshly deployed contract through the
ledger's own operations. -/
def Reach (self owner : Addr) (s : State) : Prop :=
  Relation.ReflTransGen LedgerStep (State.init self owner) s

/-- State reached by an admin call outcome (operations returning bare
`State`); a revert keeps the pre-state. -/
def afterOrS (s : State) : Except Err State → State
  | .ok t => t
  | .error _ => s

/-- The same state with the paused flag replaced: used to express that an
operation ignores `paused`. -/
def pausedSet (s : State) (b : Bool) : State :=
  { s with paused := b }

/-- Total amount of a list of outbound transfers. -/
def sendTotal (l : List Send) : Nat :=
  (l.map fun p => p.2).sum

/-- Reference semantics for a batch: run `claimRevenue` once per listed
snapshot id in order, keeping the state on failures, and sum the payouts
of the successful calls. -/
def seqClaims (caller : Addr) (machineId : Nat) :
    State → List Nat → State × Nat
  | s, [] => (s, 0)
  | s, sid :: rest =>
    match claimRevenue s caller machineId sid with
    | .ok p =>
      let r := seqClaims caller machineId p.1 rest
      (r.1, sendTotal p.2 + r.2)
    | .error _ => seqClaims caller machineId s rest

/-- Relation between the balance cache produced by a batch claim and the
one produced by running the same claims one call at a time: the batch may
retain lazy cache writes that a reverting single call would have rolled
back, and every such extra entry holds the claimant's actual token
balance. -/
def CacheRel (b : State) (cache : Nat → Nat → Addr → Nat) : Prop :=
  ∀ m sid u, cache m sid u = b.balanceSnapshots m sid u ∨
    (cache m sid u = 0 ∧
      b.balanceSnapshots m sid u = (b.tokens m).balances u)

/-! ### Inductive invariant of the reachable states

Under the ledger's own operations the only balance mutation ever
performed on a machine token is the registration mint of the full supply
to the operator, so every registered machine has a single holder owning
all shares; the snapshot bookkeeping fields are characterised exactly. -/

/-- Per-snapshot bookkeeping facts, for the machine's unique holder `h`. -/
def SnapInv (s : State) (m sid : Nat) (h : Addr) : Prop :=
  (s.shareSnapshots m sid).snapshotId = sid ∧
  (s.shareSnapshots m sid).totalShares = (s.machines m).totalShares ∧
  (s.shareSnapshots m sid).distributedAmount =
    (if s.revenueClaimed m sid h then (s.shareSnapshots m sid).revenueAmount else 0) ∧
  ((s.shareSnapshots m sid).completed = true ↔
    (s.revenueClaimed m sid h = true ∧ 0 < (s.shareSnapshots m sid).revenueAmount)) ∧
  (∀ u, u ≠ h → s.revenueClaimed m sid u = false) ∧
  (∀ u, s.balanceSnapshots m sid u = 0 ∨
    s.balanceSnapshots m sid u = (s.tokens m).balances u)

/-- Facts about one registered machine, with unique holder `h`. -/
def MachInv (s : State) (m : Nat) (h : Addr) : Prop :=
  h ≠ 0 ∧
  0 < (s.machines m).totalShares ∧
  1 ≤ m ∧ m ≤ s.machineIdCounter ∧
  (s.tokens m).owner = s.self ∧
  (s.tokens m).totalSupply = (s.machines m).totalShares ∧
  (∀ u, (s.tokens m).balances u =
    if u = h then (s.machines m).totalShares else 0) ∧
  (∀ sid, 1 ≤ sid → sid ≤ s.snapshotCounters m → SnapInv s m sid h) ∧
  (∀ sid, sid = 0 ∨ s.snapshotCounters m < sid →
    s.shareSnapshots m sid = ShareSnapshot.empty ∧
    (∀ u, s.revenueClaimed m sid u = false ∧ s.balanceSnapshots m sid u = 0))

/-- Facts about an id that has never been registered: all of its storage
is still at the mapping defaults. -/
def FreshInv (s : State) (m : Nat) : Prop :=
  s.machines m = Machine.empty ∧
  s.tokens m = MachineToken.empty ∧
  s.snapshotCounters m = 0 ∧
  (∀ sid, s.shareSnapshots m sid = ShareSnapshot.empty) ∧
  (∀ sid u, s.revenueClaimed m sid u = false ∧ s.balanceSnapshots m sid u = 0)

/-- The inductive invariant: every id is either fresh or a registered
machine with a unique holder. -/
def INV (s : State) : Prop :=
  ∀ m, ((s.machines m).operator = 0 → FreshInv s m) ∧
    ((s.machines m).operator ≠ 0 → ∃ h, MachInv s m h)

/-! ### Concrete execution traces used as witnesses and counterexamples

Contract deployed at address 1 by platform owner 2; machine 1 registered
by caller 9 for operator 5 with 1000 shares. -/

/-- Freshly deployed contract. -/
def exInit : State := State.init 1 2

/-- After registering machine 1 (operator 5, 1000 shares). -/
def exReg : State :=
  afterOr exInit (registerMachine exInit 9 5 "drill" "ipfs" 1000 3)

/-- After the owner lowers the revenue threshold to 100 wei. -/
def exThr : State := afterOrS exReg (setMinRevenueThreshold exReg 2 100)

/-- After the operator deposits 100 wei of revenue: fee 2 goes to the
owner, snapshot 1 has 1000 shares and 98 wei distributable. -/
def exRep : State := afterOr exThr (reportRevenue exThr 5 1 100 7 11)

/-- After the operator claims snapshot 1 (payout 98). -/
def exClaimed : State := afterOr exRep (claimRevenue exRep 5 1 1)

/-- After the owner lowers the revenue threshold to 0 instead. -/
def exThr0 : State := afterOrS exReg (setMinRevenueThreshold exReg 2 0)

/-- After the operator deposits 0 wei: snapshot 1 exists with
`revenueAmount = 0`, `distributedAmount = 0`, `completed = false`. -/
def exRep0 : State := afterOr exThr0 (reportRevenue exThr0 5 1 0 7 11)

/-- The registered state, paused by the owner. -/
def exPaused : State := afterOrS exReg (pause exReg 2)

/-! ### Theorems -/

/-- C3: whenever `claimRevenue` succeeds for a claimant whose resolved
balance is `B` against a snapshot with distributable amount `D` and
recorded total shares `S`, the single transfer it performs and the
increment of the snapshot's `distributedAmount` are both exactly
`D * B / S` (`Nat` division, i.e. the floor). -/
theorem C3_claim_payout (s : State) (c : Addr) (m sid : Nat) (s' : State)
    (sends : List Send) (h : claimRevenue s c m sid = .ok (s', sends)) :
    sends = [(c, (s.shareSnapshots m sid).revenueAmount * resolvedShares s m sid c /
        (s.shareSnapshots m sid).totalShares)] ∧
    (s'.shareSnapshots m sid).distributedAmount =
      (s.shareSnapshots m sid).distributedAmount +
        (s.shareSnapshots m sid).revenueAmount * resolvedShares s m sid c /
        (s.shareSnapshots m sid).totalShares := by
  unfold claimRevenue at h
  dsimp only at h
  repeat' split at h
  any_goals exact Except.noConfusion h
  all_goals
    rw [Except.ok.injEq, Prod.mk.injEq] at h
    obtain ⟨hs, hl⟩ := h
    subst hs hl
    refine ⟨?_, ?_⟩ <;>
      simp_all [resolvedShares, applyClaimMark, cacheWrite, MachineToken.balanceOf]

/-- Witness for C3: the operator (balance 1000 of 1000 shares) claims
snapshot 1 with 98 wei distributable and is paid `98 * 1000 / 1000`. -/
theorem C3_claim_payout_witness :
    okSends (claimRevenue exRep 5 1 1) =
      [(5, (exRep.shareSnapshots 1 1).revenueAmount * resolvedShares exRep 1 1 5 /
        (exRep.shareSnapshots 1 1).totalShares)] ∧
    (exClaimed.shareSnapshots 1 1).distributedAmount =
      (exRep.shareSnapshots 1 1).distributedAmount +
        (exRep.shareSnapshots 1 1).revenueAmount * resolvedShares exRep 1 1 5 /
        (exRep.shareSnapshots 1 1).totalShares :=
  C3_claim_payout exRep 5 1 1 exClaimed (okSends (claimRevenue exRep 5 1 1)) rfl

/-- C6: a successful `reportRevenue` of `value` transfers exactly the
platform fee `value * platformFeeBps / 10000` (floor) to the platform
owner and nothing to anyone else, increments the machine's snapshot
counter by one (so the first snapshot has id 1), and stores the new
snapshot with the token's current `totalSupply` as total shares,
`value - fee` as the distributable amount, zero paid out and
`completed = false`. -/
theorem C6_deposit_snapshot (s : State) (c : Addr)
    (m value now blockNum : Nat) (s' : State) (sends : List Send)
    (h : reportRevenue s c m value now blockNum = .ok (s', sends)) :
    sendTotal sends = value * s.platformFeeBps / 10000 ∧
    (∀ p ∈ sends, p.1 = s.owner) ∧
    s'.snapshotCounters m = s.snapshotCounters m + 1 ∧
    (s.snapshotCounters m = 0 → s'.snapshotCounters m = 1) ∧
    s'.shareSnapshots m (s.snapshotCounters m + 1) =
      { snapshotId := s.snapshotCounters m + 1,
        totalShares := (s.tokens m).totalSupply,
        revenueAmount := value - value * s.platformFeeBps / 10000,
        distributedAmount := 0,
        completed := false } := by
  unfold reportRevenue at h
  dsimp only at h
  repeat' split at h
  any_goals exact Except.noConfusion h
  all_goals
    rw [Except.ok.injEq, Prod.mk.injEq] at h
    obtain ⟨hs, hl⟩ := h
    subst hs hl
    refine ⟨?_, ?_, ?_, ?_, ?_⟩ <;>
      simp_all [sendTotal]

/-- Witness for C6: depositing 100 wei at `platformFeeBps = 250` sends
fee 2 to the owner and creates snapshot 1 with 98 wei distributable over
1000 shares. -/
theorem C6_deposit_snapshot_witness :
    sendTotal (okSends (reportRevenue exThr 5 1 100 7 11)) =
      100 * exThr.platformFeeBps / 10000 ∧
    (∀ p ∈ okSends (reportRevenue exThr 5 1 100 7 11), p.1 = exThr.owner) ∧
    exRep.snapshotCounters 1 = exThr.snapshotCounters 1 + 1 ∧
    (exThr.snapshotCounters 1 = 0 → exRep.snapshotCounters 1 = 1) ∧
    exRep.shareSnapshots 1 (exThr.snapshotCounters 1 + 1) =
      { snapshotId := exThr.snapshotCounters 1 + 1,
        totalShares := (exThr.tokens 1).totalSupply,
        revenueAmount := 100 - 100 * exThr.platformFeeBps / 10000,
        distributedAmount := 0,
        completed := false } :=
  C6_deposit_snapshot exThr 5 1 100 7 11 exRep
    (okSends (reportRevenue exThr 5 1 100 7 11)) rfl

/-- C7: with the machine registered and the contract unpaused,
`claimRevenue` fails with the code's `InvalidMachineId` (the spec's
`NotFound`) when the snapshot has no distributable amount recorded, with
`NoSharesOwned` when the resolved balance is zero, and with the code's
`InsufficientRevenue` (the spec's `ZeroPayout`) when the payout
`D * B / S` truncates to zero; every failing call keeps the state
unchanged (a revert rolls the transaction back). -/
theorem C7_claim_errors (s : State) (c : Addr) (m sid : Nat)
    (hex : (s.machines m).operator ≠ 0) (hp : s.paused = false) :
    ((s.shareSnapshots m sid).revenueAmount = 0 →
      claimRevenue s c m sid = .error .InvalidMachineId) ∧
    ((s.shareSnapshots m sid).revenueAmount ≠ 0 →
      s.revenueClaimed m sid c = false →
      resolvedShares s m sid c = 0 →
      claimRevenue s c m sid = .error .NoSharesOwned) ∧
    ((s.shareSnapshots m sid).revenueAmount ≠ 0 →
      s.revenueClaimed m sid c = false →
      resolvedShares s m sid c ≠ 0 →
      (s.shareSnapshots m sid).revenueAmount * resolvedShares s m sid c /
        (s.shareSnapshots m sid).totalShares = 0 →
      claimRevenue s c m sid = .error .InsufficientRevenue) ∧
    (∀ e, claimRevenue s c m sid = .error e →
      afterOr s (claimRevenue s c m sid) = s) := by
  refine ⟨?_, ?_, ?_, ?_⟩
  · intro h0
    unfold claimRevenue
    simp [hex, hp, h0]
  · intro h0 hcl hres
    unfold resolvedShares at hres
    unfold claimRevenue
    simp only [hex, hp, h0, hcl]
    simp_all [MachineToken.balanceOf]
  · intro h0 hcl hres hrev
    unfold resolvedShares at hres hrev
    unfold claimRevenue
    simp only [hex, hp, h0, hcl]
    simp_all [MachineToken.balanceOf]
  · intro e he
    rw [he]
    rfl

/-- Witness for C7: on the deposited state, snapshot 2 does not exist
(`NotFound` case), a shareless caller 7 gets `NoSharesOwned`, and every
failure keeps the state unchanged. -/
theorem C7_claim_errors_witness :
    (((exRep.shareSnapshots 1 2).revenueAmount = 0 →
      claimRevenue exRep 7 1 2 = .error .InvalidMachineId) ∧
    ((exRep.shareSnapshots 1 2).revenueAmount ≠ 0 →
      exRep.revenueClaimed 1 2 7 = false →
      resolvedShares exRep 1 2 7 = 0 →
      claimRevenue exRep 7 1 2 = .error .NoSharesOwned) ∧
    ((exRep.shareSnapshots 1 2).revenueAmount ≠ 0 →
      exRep.revenueClaimed 1 2 7 = false →
      resolvedShares exRep 1 2 7 ≠ 0 →
      (exRep.shareSnapshots 1 2).revenueAmount * resolvedShares exRep 1 2 7 /
        (exRep.shareSnapshots 1 2).totalShares = 0 →
      claimRevenue exRep 7 1 2 = .error .InsufficientRevenue) ∧
    (∀ e, claimRevenue exRep 7 1 2 = .error e →
      afterOr exRep (claimRevenue exRep 7 1 2) = exRep)) ∧
    ((exRep.shareSnapshots 1 1).revenueAmount ≠ 0 →
      exRep.revenueClaimed 1 1 7 = false →
      resolvedShares exRep 1 1 7 = 0 →
      claimRevenue exRep 7 1 1 = .error .NoSharesOwned) :=
  ⟨C7_claim_errors exRep 7 1 2 (by decide) rfl,
   (C7_claim_errors exRep 7 1 1 (by decide) rfl).2.1⟩

/-- C8: in an unpaused state, `registerMachine` fails with the code's
`ZeroAddress` (the spec's `InvalidOperator`) when the operator is the
zero address, fails with the code's `InvalidMachineId` (the spec's
`InvalidShareCount`) when the initial share count is zero, and for a
nonzero operator and share count it succeeds, allocating the next
machine id. -/
theorem C8_register_validation (s : State) (c operator : Addr)
    (name uri : String) (totalShares now : Nat) (hp : s.paused = false) :
    (operator = 0 →
      registerMachine s c operator name uri totalShares now = .error .ZeroAddress) ∧
    (operator ≠ 0 → totalShares = 0 →
      registerMachine s c operator name uri totalShares now = .error .InvalidMachineId) ∧
    (operator ≠ 0 → totalShares ≠ 0 →
      (registerMachine s c operator name uri totalShares now).isOk = true ∧
      okId (registerMachine s c operator name uri totalShares now) =
        s.machineIdCounter + 1 ∧
      (afterOr s (registerMachine s c operator name uri totalShares now)).machineIdCounter =
        s.machineIdCounter + 1 ∧
      ((afterOr s (registerMachine s c operator name uri totalShares now)).machines
        (s.machineIdCounter + 1)).operator = operator) := by
  refine ⟨?_, ?_, ?_⟩
  · intro h0
    unfold registerMachine
    simp [hp, h0]
  · intro h0 hts
    unfold registerMachine
    simp [hp, h0, hts]
  · intro h0 hts
    unfold registerMachine okId afterOr
    simp only [hp]
    simp only [MachineToken.mint]
    simp [h0, hts, Except.isOk, Except.toBool]

/-- Witness for C8: on the fresh deployment, registering with a zero
operator or zero shares fails with the corresponding error, and a valid
registration allocates machine id 1. -/
theorem C8_register_validation_witness :
    ((0 : Addr) = 0 →
      registerMachine exInit 9 0 "drill" "ipfs" 1000 3 = .error .ZeroAddress) ∧
    ((5 : Addr) ≠ 0 → (0 : Nat) = 0 →
      registerMachine exInit 9 5 "drill" "ipfs" 0 3 = .error .InvalidMachineId) ∧
    ((5 : Addr) ≠ 0 → (1000 : Nat) ≠ 0 →
      (registerMachine exInit 9 5 "drill" "ipfs" 1000 3).isOk = true ∧
      okId (registerMachine exInit 9 5 "drill" "ipfs" 1000 3) =
        exInit.machineIdCounter + 1 ∧
      (afterOr exInit (registerMachine exInit 9 5 "drill" "ipfs" 1000 3)).machineIdCounter =
        exInit.machineIdCounter + 1 ∧
      ((afterOr exInit (registerMachine exInit 9 5 "drill" "ipfs" 1000 3)).machines
        (exInit.machineIdCounter + 1)).operator = 5) :=
  ⟨(C8_register_validation exInit 9 0 "drill" "ipfs" 1000 3 rfl).1,
   (C8_register_validation exInit 9 5 "drill" "ipfs" 0 3 rfl).2.1,
   (C8_register_validation exInit 9 5 "drill" "ipfs" 1000 3 rfl).2.2⟩

/-- The batch loop and the one-call-at-a-time reference semantics stay in
lockstep: starting from states that differ only by extra lazy cache
entries holding true balances, they skip and claim the same entries and
accumulate the same payouts, and the final states again differ only by
such cache entries. -/
theorem batch_seq_loop (c : Addr) (m : Nat) (ids : List Nat) :
    ∀ (b : State) (cache : Nat → Nat → Addr → Nat) (acc : Nat),
    CacheRel b cache →
    (b.machines m).operator ≠ 0 → b.paused = false →
    ∃ cache2,
      CacheRel (batchClaimLoop c m b ids acc).1 cache2 ∧
      (seqClaims c m { b with balanceSnapshots := cache } ids).1 =
        { (batchClaimLoop c m b ids acc).1 with balanceSnapshots := cache2 } ∧
      (batchClaimLoop c m b ids acc).2 =
        acc + (seqClaims c m { b with balanceSnapshots := cache } ids).2 := by
  induction ids with
  | nil =>
    intro b cache acc hrel hop hp
    exact ⟨cache, hrel, rfl, rfl⟩
  | cons sid rest ih =>
    intro b cache acc hrel hop hp
    by_cases hcl : b.revenueClaimed m sid c
    · by_cases hrev0 : (b.shareSnapshots m sid).revenueAmount = 0
      · have hclaim : claimRevenue { b with balanceSnapshots := cache } c m sid =
            .error .InvalidMachineId := by
          simp [claimRevenue, hop, hp, hrev0]
        have hbatch : batchClaimLoop c m b (sid :: rest) acc =
            batchClaimLoop c m b rest acc := by
          simp [batchClaimLoop, hcl]
        have hseq : seqClaims c m { b with balanceSnapshots := cache } (sid :: rest) =
            seqClaims c m { b with balanceSnapshots := cache } rest := by
          simp only [seqClaims, hclaim]
        rw [hbatch, hseq]
        exact ih b cache acc hrel hop hp
      · have hclaim : claimRevenue { b with balanceSnapshots := cache } c m sid =
            .error .AlreadyClaimed := by
          simp [claimRevenue, hop, hp, hrev0, hcl]
        have hbatch : batchClaimLoop c m b (sid :: rest) acc =
            batchClaimLoop c m b rest acc := by
          simp [batchClaimLoop, hcl]
        have hseq : seqClaims c m { b with balanceSnapshots := cache } (sid :: rest) =
            seqClaims c m { b with balanceSnapshots := cache } rest := by
          simp only [seqClaims, hclaim]
        rw [hbatch, hseq]
        exact ih b cache acc hrel hop hp
    · by_cases hrev0 : (b.shareSnapshots m sid).revenueAmount = 0
      · have hclaim : claimRevenue { b with balanceSnapshots := cache } c m sid =
            .error .InvalidMachineId := by
          simp [claimRevenue, hop, hp, hrev0]
        have hbatch : batchClaimLoop c m b (sid :: rest) acc =
            batchClaimLoop c m b rest acc := by
          simp [batchClaimLoop, hcl, hrev0]
        have hseq : seqClaims c m { b with balanceSnapshots := cache } (sid :: rest) =
            seqClaims c m { b with balanceSnapshots := cache } rest := by
          simp only [seqClaims, hclaim]
        rw [hbatch, hseq]
        exact ih b cache acc hrel hop hp
      · by_cases hstb : b.balanceSnapshots m sid c = 0
        · have hstq : cache m sid c = 0 := by
            rcases hrel m sid c with h | ⟨h, _⟩
            · rw [h, hstb]
            · exact h
          by_cases hv0 : (b.tokens m).balanceOf c = 0
          · have hclaim : claimRevenue { b with balanceSnapshots := cache } c m sid =
                .error .NoSharesOwned := by
              simp [claimRevenue, hop, hp, hrev0, hcl, hstq, hv0]
            have hbatch : batchClaimLoop c m b (sid :: rest) acc =
                batchClaimLoop c m b rest acc := by
              simp [batchClaimLoop, hcl, hrev0, hstb, hv0]
            have hseq : seqClaims c m { b with balanceSnapshots := cache } (sid :: rest) =
                seqClaims c m { b with balanceSnapshots := cache } rest := by
              simp only [seqClaims, hclaim]
            rw [hbatch, hseq]
            exact ih b cache acc hrel hop hp
          · by_cases hp0 : (b.shareSnapshots m sid).revenueAmount *
                (b.tokens m).balanceOf c / (b.shareSnapshots m sid).totalShares = 0
            · have hclaim : claimRevenue { b with balanceSnapshots := cache } c m sid =
                  .error .InsufficientRevenue := by
                simp [claimRevenue, hop, hp, hrev0, hcl, hstq, hv0, hp0]
              have hbatch : batchClaimLoop c m b (sid :: rest) acc =
                  batchClaimLoop c m
                    (cacheWrite b m sid c ((b.tokens m).balanceOf c)) rest acc := by
                simp [batchClaimLoop, hcl, hrev0, hstb, hv0, hp0, Nat.pos_of_ne_zero]
              have hseq : seqClaims c m { b with balanceSnapshots := cache } (sid :: rest) =
                  seqClaims c m { b with balanceSnapshots := cache } rest := by
                simp only [seqClaims, hclaim]
              have hrel2 : CacheRel (cacheWrite b m sid c ((b.tokens m).balanceOf c)) cache := by
                intro m2 sid2 u2
                by_cases hpt : m2 = m ∧ sid2 = sid ∧ u2 = c
                · obtain ⟨rfl, rfl, rfl⟩ := hpt
                  right
                  refine ⟨hstq, ?_⟩
                  simp [cacheWrite, MachineToken.balanceOf]
                · rcases hrel m2 sid2 u2 with h | ⟨h1, h2⟩
                  · left
                    simpa [cacheWrite, hpt] using h
                  · right
                    exact ⟨h1, by simpa [cacheWrite, hpt] using h2⟩
              rw [hbatch, hseq]
              exact ih (cacheWrite b m sid c ((b.tokens m).balanceOf c)) cache acc hrel2 hop hp
            · -- successful entry, lazy write on both sides
              have hclaim : claimRevenue { b with balanceSnapshots := cache } c m sid =
                  .ok (applyClaimMark
                      (cacheWrite { b with balanceSnapshots := cache } m sid c
                        ((b.tokens m).balanceOf c)) m sid c
                      ((b.shareSnapshots m sid).revenueAmount * (b.tokens m).balanceOf c /
                        (b.shareSnapshots m sid).totalShares),
                    [(c, (b.shareSnapshots m sid).revenueAmount * (b.tokens m).balanceOf c /
                        (b.shareSnapshots m sid).totalShares)]) := by
                simp [claimRevenue, hop, hp, hrev0, hcl, hstq, hv0, hp0, Nat.pos_of_ne_zero]
              have hclaim2 : claimRevenue { b with balanceSnapshots := cache } c m sid =
                  .ok ({ applyClaimMark (cacheWrite b m sid c ((b.tokens m).balanceOf c)) m sid c
                      ((b.shareSnapshots m sid).revenueAmount * (b.tokens m).balanceOf c /
                        (b.shareSnapshots m sid).totalShares) with
                      balanceSnapshots := fun m2 sid2 u2 =>
                        if m2 = m ∧ sid2 = sid ∧ u2 = c then (b.tokens m).balanceOf c
                        else cache m2 sid2 u2 },
                    [(c, (b.shareSnapshots m sid).revenueAmount * (b.tokens m).balanceOf c /
                        (b.shareSnapshots m sid).totalShares)]) := hclaim
              have hbatch : batchClaimLoop c m b (sid :: rest) acc =
                  batchClaimLoop c m
                    (applyClaimMark (cacheWrite b m sid c ((b.tokens m).balanceOf c)) m sid c
                      ((b.shareSnapshots m sid).revenueAmount * (b.tokens m).balanceOf c /
                        (b.shareSnapshots m sid).totalShares)) rest
                    (acc + (b.shareSnapshots m sid).revenueAmount * (b.tokens m).balanceOf c /
                        (b.shareSnapshots m sid).totalShares) := by
                simp [batchClaimLoop, hcl, hrev0, hstb, hv0, hp0, Nat.pos_of_ne_zero]
              have hrel2 : CacheRel
                  (applyClaimMark (cacheWrite b m sid c ((b.tokens m).balanceOf c)) m sid c
                    ((b.shareSnapshots m sid).revenueAmount * (b.tokens m).balanceOf c /
                      (b.shareSnapshots m sid).totalShares))
                  (fun m2 sid2 u2 =>
                    if m2 = m ∧ sid2 = sid ∧ u2 = c then (b.tokens m).balanceOf c
                    else cache m2 sid2 u2) := by
                intro m2 sid2 u2
                by_cases hpt : m2 = m ∧ sid2 = sid ∧ u2 = c
                · obtain ⟨rfl, rfl, rfl⟩ := hpt
                  left
                  simp [applyClaimMark, cacheWrite]
                · rcases hrel m2 sid2 u2 with h | ⟨h1, h2⟩
                  · left
                    simpa [applyClaimMark, cacheWrite, hpt] using h
                  · right
                    exact ⟨by simpa [hpt] using h1,
                      by simpa [applyClaimMark, cacheWrite, hpt] using h2⟩
              obtain ⟨c2, r1, r2, r3⟩ := ih
                (applyClaimMark (cacheWrite b m sid c ((b.tokens m).balanceOf c)) m sid c
                  ((b.shareSnapshots m sid).revenueAmount * (b.tokens m).balanceOf c /
                    (b.shareSnapshots m sid).totalShares))
                (fun m2 sid2 u2 =>
                  if m2 = m ∧ sid2 = sid ∧ u2 = c then (b.tokens m).balanceOf c
                  else cache m2 sid2 u2)
                (acc + (b.shareSnapshots m sid).revenueAmount * (b.tokens m).balanceOf c /
                    (b.shareSnapshots m sid).totalShares)
                hrel2 hop hp
              refine ⟨c2, ?_, ?_, ?_⟩
              · rw [hbatch]
                exact r1
              · rw [hbatch]
                simp only [seqClaims, hclaim2]
                exact r2
              · rw [hbatch]
                simp only [seqClaims, hclaim2]
                rw [r3]
                simp [sendTotal]
                omega
        · rcases hrel m sid c with heqc | ⟨hq0, hbal⟩
          · by_cases hp0 : (b.shareSnapshots m sid).revenueAmount *
                b.balanceSnapshots m sid c / (b.shareSnapshots m sid).totalShares = 0
            · have hclaim : claimRevenue { b with balanceSnapshots := cache } c m sid =
                  .error .InsufficientRevenue := by
                simp [claimRevenue, hop, hp, hrev0, hcl, heqc, hstb, hp0]
              have hbatch : batchClaimLoop c m b (sid :: rest) acc =
                  batchClaimLoop c m b rest acc := by
                simp [batchClaimLoop, hcl, hrev0, hstb, hp0]
              have hseq : seqClaims c m { b with balanceSnapshots := cache } (sid :: rest) =
                  seqClaims c m { b with balanceSnapshots := cache } rest := by
                simp only [seqClaims, hclaim]
              rw [hbatch, hseq]
              exact ih b cache acc hrel hop hp
            · have hclaim : claimRevenue { b with balanceSnapshots := cache } c m sid =
                  .ok ({ applyClaimMark b m sid c
                      ((b.shareSnapshots m sid).revenueAmount * b.balanceSnapshots m sid c /
                        (b.shareSnapshots m sid).totalShares) with
                      balanceSnapshots := cache },
                    [(c, (b.shareSnapshots m sid).revenueAmount * b.balanceSnapshots m sid c /
                        (b.shareSnapshots m sid).totalShares)]) := by
                simp [claimRevenue, applyClaimMark, cacheWrite, hop, hp, hrev0, hcl, heqc,
                  hstb, hp0]
              have hbatch : batchClaimLoop c m b (sid :: rest) acc =
                  batchClaimLoop c m
                    (applyClaimMark b m sid c
                      ((b.shareSnapshots m sid).revenueAmount * b.balanceSnapshots m sid c /
                        (b.shareSnapshots m sid).totalShares)) rest
                    (acc + (b.shareSnapshots m sid).revenueAmount * b.balanceSnapshots m sid c /
                        (b.shareSnapshots m sid).totalShares) := by
                simp [batchClaimLoop, hcl, hrev0, hstb, hp0]
              have hrel2 : CacheRel
                  (applyClaimMark b m sid c
                    ((b.shareSnapshots m sid).revenueAmount * b.balanceSnapshots m sid c /
                      (b.shareSnapshots m sid).totalShares)) cache := hrel
              obtain ⟨c2, r1, r2, r3⟩ := ih
                (applyClaimMark b m sid c
                  ((b.shareSnapshots m sid).revenueAmount * b.balanceSnapshots m sid c /
                    (b.shareSnapshots m sid).totalShares))
                cache
                (acc + (b.shareSnapshots m sid).revenueAmount * b.balanceSnapshots m sid c /
                    (b.shareSnapshots m sid).totalShares)
                hrel2 hop hp
              refine ⟨c2, ?_, ?_, ?_⟩
              · rw [hbatch]
                exact r1
              · rw [hbatch]
                simp only [seqClaims, hclaim]
                exact r2
              · rw [hbatch]
                simp only [seqClaims, hclaim]
                rw [r3]
                simp [sendTotal]
                omega
          · have hvb : b.balanceSnapshots m sid c = (b.tokens m).balances c := hbal
            have hb0 : (b.tokens m).balances c ≠ 0 := by rw [← hvb]; exact hstb
            by_cases hp0 : (b.shareSnapshots m sid).revenueAmount *
                (b.tokens m).balances c / (b.shareSnapshots m sid).totalShares = 0
            · have hclaim : claimRevenue { b with balanceSnapshots := cache } c m sid =
                  .error .InsufficientRevenue := by
                simp [claimRevenue, MachineToken.balanceOf, hop, hp, hrev0, hcl, hq0, hb0, hp0]
              have hbatch : batchClaimLoop c m b (sid :: rest) acc =
                  batchClaimLoop c m b rest acc := by
                simp [batchClaimLoop, MachineToken.balanceOf, hcl, hrev0, hstb, hvb, hb0, hp0]
              have hseq : seqClaims c m { b with balanceSnapshots := cache } (sid :: rest) =
                  seqClaims c m { b with balanceSnapshots := cache } rest := by
                simp only [seqClaims, hclaim]
              rw [hbatch, hseq]
              exact ih b cache acc hrel hop hp
            · have hclaim : claimRevenue { b with balanceSnapshots := cache } c m sid =
                  .ok ({ applyClaimMark b m sid c
                      ((b.shareSnapshots m sid).revenueAmount * (b.tokens m).balances c /
                        (b.shareSnapshots m sid).totalShares) with
                      balanceSnapshots := fun m2 sid2 u2 =>
                        if m2 = m ∧ sid2 = sid ∧ u2 = c then (b.tokens m).balances c
                        else cache m2 sid2 u2 },
                    [(c, (b.shareSnapshots m sid).revenueAmount * (b.tokens m).balances c /
                        (b.shareSnapshots m sid).totalShares)]) := by
                simp [claimRevenue, applyClaimMark, cacheWrite, MachineToken.balanceOf, hop,
                  hp, hrev0, hcl, hq0, hb0, hp0, Nat.pos_of_ne_zero]
              have hbatch : batchClaimLoop c m b (sid :: rest) acc =
                  batchClaimLoop c m
                    (applyClaimMark b m sid c
                      ((b.shareSnapshots m sid).revenueAmount * (b.tokens m).balances c /
                        (b.shareSnapshots m sid).totalShares)) rest
                    (acc + (b.shareSnapshots m sid).revenueAmount * (b.tokens m).balances c /
                        (b.shareSnapshots m sid).totalShares) := by
                simp [batchClaimLoop, MachineToken.balanceOf, hcl, hrev0, hstb, hvb, hb0, hp0]
              have hrel2 : CacheRel
                  (applyClaimMark b m sid c
                    ((b.shareSnapshots m sid).revenueAmount * (b.tokens m).balances c /
                      (b.shareSnapshots m sid).totalShares))
                  (fun m2 sid2 u2 =>
                    if m2 = m ∧ sid2 = sid ∧ u2 = c then (b.tokens m).balances c
                    else cache m2 sid2 u2) := by
                intro m2 sid2 u2
                by_cases hpt : m2 = m ∧ sid2 = sid ∧ u2 = c
                · obtain ⟨rfl, rfl, rfl⟩ := hpt
                  left
                  simp [applyClaimMark, hvb]
                · rcases hrel m2 sid2 u2 with h | ⟨h1, h2⟩
                  · left
                    simpa [applyClaimMark, hpt] using h
                  · right
                    exact ⟨by simpa [hpt] using h1, by simpa [applyClaimMark, hpt] using h2⟩
              obtain ⟨c2, r1, r2, r3⟩ := ih
                (applyClaimMark b m sid c
                  ((b.shareSnapshots m sid).revenueAmount * (b.tokens m).balances c /
                    (b.shareSnapshots m sid).totalShares))
                (fun m2 sid2 u2 =>
                  if m2 = m ∧ sid2 = sid ∧ u2 = c then (b.tokens m).balances c
                  else cache m2 sid2 u2)
                (acc + (b.shareSnapshots m sid).revenueAmount * (b.tokens m).balances c /
                    (b.shareSnapshots m sid).totalShares)
                hrel2 hop hp
              refine ⟨c2, ?_, ?_, ?_⟩
              · rw [hbatch]
                exact r1
              · rw [hbatch]
                simp only [seqClaims, hclaim]
                exact r2
              · rw [hbatch]
                simp only [seqClaims, hclaim]
                rw [r3]
                simp [sendTotal]
                omega

/-- C5 (amended): a successful `batchClaimRevenue` produces the same
claimed-markers, snapshots and every other storage field as running
`claimRevenue` once per listed id in order (skipping, without failing,
entries whose single claim would revert as already claimed, not found, no
shares, or zero payout), except that the batch may retain lazy
balance-cache writes (always the claimant's true balance) that a
reverting single call rolls back; it performs at most one outbound
transfer: exactly one, of the accumulated sum of the individual payouts,
when that sum is positive, and none when it is zero. -/
theorem C5_batch_refines_claims (s : State) (c : Addr) (m : Nat) (ids : List Nat)
    (s' : State) (sends : List Send)
    (h : batchClaimRevenue s c m ids = .ok (s', sends)) :
    sends = (if (seqClaims c m s ids).2 = 0 then []
      else [(c, (seqClaims c m s ids).2)]) ∧
    s'.revenueClaimed = (seqClaims c m s ids).1.revenueClaimed ∧
    s'.shareSnapshots = (seqClaims c m s ids).1.shareSnapshots ∧
    s'.machines = (seqClaims c m s ids).1.machines ∧
    s'.tokens = (seqClaims c m s ids).1.tokens ∧
    s'.snapshotCounters = (seqClaims c m s ids).1.snapshotCounters ∧
    (∀ m2 sid2 u2,
      (seqClaims c m s ids).1.balanceSnapshots m2 sid2 u2 =
          s'.balanceSnapshots m2 sid2 u2 ∨
        ((seqClaims c m s ids).1.balanceSnapshots m2 sid2 u2 = 0 ∧
          s'.balanceSnapshots m2 sid2 u2 = (s'.tokens m2).balances u2)) := by
  unfold batchClaimRevenue at h
  dsimp only at h
  split at h
  · exact Except.noConfusion h
  rename_i hop
  split at h
  · exact Except.noConfusion h
  rename_i hp
  have hp2 : s.paused = false := by
    simpa using hp
  obtain ⟨c2, r1, r2, r3⟩ := batch_seq_loop c m ids s s.balanceSnapshots 0
    (fun m2 sid2 u2 => Or.inl rfl) hop hp2
  have hE : ({ s with balanceSnapshots := s.balanceSnapshots } : State) = s := rfl
  rw [hE] at r2 r3
  rw [Nat.zero_add] at r3
  split at h
  · rename_i hpos
    rw [Except.ok.injEq, Prod.mk.injEq] at h
    obtain ⟨hs, hl⟩ := h
    subst hs hl
    refine ⟨?_, ?_, ?_, ?_, ?_, ?_, ?_⟩
    · rw [if_neg (by omega), r3]
    · rw [r2]
    · rw [r2]
    · rw [r2]
    · rw [r2]
    · rw [r2]
    · intro m2 sid2 u2
      rw [r2]
      exact r1 m2 sid2 u2
  · rename_i hpos
    rw [Except.ok.injEq, Prod.mk.injEq] at h
    obtain ⟨hs, hl⟩ := h
    subst hs hl
    refine ⟨?_, ?_, ?_, ?_, ?_, ?_, ?_⟩
    · rw [if_pos (by omega)]
    · rw [r2]
    · rw [r2]
    · rw [r2]
    · rw [r2]
    · rw [r2]
    · intro m2 sid2 u2
      rw [r2]
      exact r1 m2 sid2 u2

/-- Counterexample for C5 as stated: the claim promises "exactly one
outbound transfer whose amount equals the sum of the individual
payouts", but when every entry is skipped (here: the empty id list, sum
0) the code performs no transfer at all rather than one transfer of 0. -/
theorem C5_counterexample :
    batchClaimRevenue exReg 7 1 [] = .ok (exReg, []) ∧
    (seqClaims 7 1 exReg []).2 = 0 ∧
    okSends (batchClaimRevenue exReg 7 1 []) ≠
      [(7, (seqClaims 7 1 exReg []).2)] :=
  ⟨rfl, rfl, by decide⟩

/-- Witness for C5: on the deposited state, `batchClaimRevenue` over
`[1, 1, 2]` (snapshot 1 twice, nonexistent snapshot 2) by the operator
pays 98 once in a single transfer and agrees with the sequential claims
field by field. -/
theorem C5_batch_refines_claims_witness :
    okSends (batchClaimRevenue exRep 5 1 [1, 1, 2]) =
      (if (seqClaims 5 1 exRep [1, 1, 2]).2 = 0 then []
        else [(5, (seqClaims 5 1 exRep [1, 1, 2]).2)]) ∧
    (afterOr exRep (batchClaimRevenue exRep 5 1 [1, 1, 2])).revenueClaimed =
      (seqClaims 5 1 exRep [1, 1, 2]).1.revenueClaimed ∧
    (afterOr exRep (batchClaimRevenue exRep 5 1 [1, 1, 2])).shareSnapshots =
      (seqClaims 5 1 exRep [1, 1, 2]).1.shareSnapshots ∧
    (afterOr exRep (batchClaimRevenue exRep 5 1 [1, 1, 2])).machines =
      (seqClaims 5 1 exRep [1, 1, 2]).1.machines ∧
    (afterOr exRep (batchClaimRevenue exRep 5 1 [1, 1, 2])).tokens =
      (seqClaims 5 1 exRep [1, 1, 2]).1.tokens ∧
    (afterOr exRep (batchClaimRevenue exRep 5 1 [1, 1, 2])).snapshotCounters =
      (seqClaims 5 1 exRep [1, 1, 2]).1.snapshotCounters ∧
    (∀ m2 sid2 u2,
      (seqClaims 5 1 exRep [1, 1, 2]).1.balanceSnapshots m2 sid2 u2 =
          (afterOr exRep (batchClaimRevenue exRep 5 1 [1, 1, 2])).balanceSnapshots
            m2 sid2 u2 ∨
        ((seqClaims 5 1 exRep [1, 1, 2]).1.balanceSnapshots m2 sid2 u2 = 0 ∧
          (afterOr exRep (batchClaimRevenue exRep 5 1 [1, 1, 2])).balanceSnapshots
              m2 sid2 u2 =
            ((afterOr exRep (batchClaimRevenue exRep 5 1 [1, 1, 2])).tokens m2).balances
              u2)) :=
  C5_batch_refines_claims exRep 5 1 [1, 1, 2]
    (afterOr exRep (batchClaimRevenue exRep 5 1 [1, 1, 2]))
    (okSends (batchClaimRevenue exRep 5 1 [1, 1, 2])) rfl

/-- C10: while the ledger is paused every call to `registerMachine`,
`reportRevenue`, `claimRevenue` or `batchClaimRevenue` fails with no
state change (so claims are blocked for the duration of a pause), whereas
`updateMachineMetadata`, `setMachineStatus` and `transferOperator` behave
identically whatever the paused flag is; only the platform owner can
pause or unpause. -/
theorem C10_pause_scope (s : State) (c operator newOperator : Addr)
    (name uri : String) (m sid totalShares value now blockNum : Nat)
    (ids : List Nat) (b active : Bool) :
    (s.paused = true →
      (registerMachine s c operator name uri totalShares now).isOk = false ∧
      (reportRevenue s c m value now blockNum).isOk = false ∧
      (claimRevenue s c m sid).isOk = false ∧
      (batchClaimRevenue s c m ids).isOk = false ∧
      afterOr s (registerMachine s c operator name uri totalShares now) = s ∧
      afterOr s (reportRevenue s c m value now blockNum) = s ∧
      afterOr s (claimRevenue s c m sid) = s ∧
      afterOr s (batchClaimRevenue s c m ids) = s) ∧
    (updateMachineMetadata (pausedSet s b) c m uri =
      (updateMachineMetadata s c m uri).map (fun t => pausedSet t b)) ∧
    (setMachineStatus (pausedSet s b) c m active =
      (setMachineStatus s c m active).map (fun t => pausedSet t b)) ∧
    (transferOperator (pausedSet s b) c m newOperator =
      (transferOperator s c m newOperator).map (fun t => pausedSet t b)) ∧
    (c ≠ s.owner → pause s c = .error .OwnableUnauthorizedAccount ∧
      unpause s c = .error .OwnableUnauthorizedAccount) ∧
    (s.paused = false → pause s s.owner = .ok (pausedSet s true)) ∧
    (s.paused = true → unpause s s.owner = .ok (pausedSet s false)) := by
  refine ⟨?_, ?_, ?_, ?_, ?_, ?_, ?_⟩
  · intro hps
    refine ⟨?_, ?_, ?_, ?_, ?_, ?_, ?_, ?_⟩ <;>
    · first
      | (unfold registerMachine; dsimp only; repeat' split
         all_goals simp_all [afterOr, Except.isOk, Except.toBool])
      | (unfold reportRevenue; dsimp only; repeat' split
         all_goals simp_all [afterOr, Except.isOk, Except.toBool])
      | (unfold claimRevenue; dsimp only; repeat' split
         all_goals simp_all [afterOr, Except.isOk, Except.toBool])
      | (unfold batchClaimRevenue; dsimp only; repeat' split
         all_goals simp_all [afterOr, Except.isOk, Except.toBool])
  · unfold updateMachineMetadata pausedSet
    dsimp only
    repeat' split
    all_goals simp_all [Except.map]
  · unfold setMachineStatus pausedSet
    dsimp only
    repeat' split
    all_goals simp_all [Except.map]
  · unfold transferOperator pausedSet
    dsimp only
    repeat' split
    all_goals simp_all [Except.map]
  · intro hc
    unfold pause unpause
    simp [hc]
  · intro hps
    unfold pause pausedSet
    simp [hps]
  · intro hps
    unfold unpause pausedSet
    simp [hps]

/-- Witness for C10: on the registered-then-paused state all four gated
operations fail and change nothing; a metadata update commutes with the
paused flag; caller 9 cannot pause or unpause; the owner can pause the
unpaused state and unpause the paused one. -/
theorem C10_pause_scope_witness :
    ((registerMachine exPaused 9 5 "drill" "ipfs" 1000 3).isOk = false ∧
     (reportRevenue exPaused 5 1 100 7 11).isOk = false ∧
     (claimRevenue exPaused 5 1 1).isOk = false ∧
     (batchClaimRevenue exPaused 5 1 [1]).isOk = false ∧
     afterOr exPaused (registerMachine exPaused 9 5 "drill" "ipfs" 1000 3) = exPaused ∧
     afterOr exPaused (reportRevenue exPaused 5 1 100 7 11) = exPaused ∧
     afterOr exPaused (claimRevenue exPaused 5 1 1) = exPaused ∧
     afterOr exPaused (batchClaimRevenue exPaused 5 1 [1]) = exPaused) ∧
    (updateMachineMetadata (pausedSet exReg true) 5 1 "x" =
      (updateMachineMetadata exReg 5 1 "x").map (fun t => pausedSet t true)) ∧
    (pause exReg 9 = .error .OwnableUnauthorizedAccount ∧
     unpause exReg 9 = .error .OwnableUnauthorizedAccount) ∧
    (pause exReg exReg.owner = .ok (pausedSet exReg true)) ∧
    (unpause exPaused exPaused.owner = .ok (pausedSet exPaused false)) :=
  ⟨(C10_pause_scope exPaused 9 5 6 "drill" "ipfs" 1 1 1000 100 7 11 [1] true true).1 rfl,
   (C10_pause_scope exReg 5 5 6 "drill" "x" 1 1 1000 100 7 11 [1] true true).2.1,
   (C10_pause_scope exReg 9 5 6 "drill" "x" 1 1 1000 100 7 11 [1] true true).2.2.2.2.1 (by decide),
   (C10_pause_scope exReg 5 5 6 "drill" "x" 1 1 1000 100 7 11 [1] true true).2.2.2.2.2.1 rfl,
   (C10_pause_scope exPaused 5 5 6 "drill" "x" 1 1 1000 100 7 11 [1] true true).2.2.2.2.2.2 rfl⟩

/-! ### Invariant machinery and the reachability claims -/


theorem inv_init (self owner : Addr) : INV (State.init self owner) := by
  intro m
  constructor
  · intro _
    refine ⟨rfl, rfl, rfl, fun _ => rfl, fun _ _ => ⟨rfl, rfl⟩⟩
  · intro hop
    exact absurd rfl hop

theorem INV_preserved_fields (s s' : State)
    (h1 : s'.self = s.self) (h2 : s'.tokens = s.tokens)
    (h3 : s'.shareSnapshots = s.shareSnapshots)
    (h4 : s'.snapshotCounters = s.snapshotCounters)
    (h5 : s'.balanceSnapshots = s.balanceSnapshots)
    (h6 : s'.revenueClaimed = s.revenueClaimed)
    (h7 : s'.machineIdCounter = s.machineIdCounter)
    (h8 : ∀ m, s'.machines m = s.machines m ∨
      ((s.machines m).operator ≠ 0 ∧ (s'.machines m).operator ≠ 0 ∧
       (s'.machines m).totalShares = (s.machines m).totalShares))
    (hI : INV s) : INV s' := by
  intro m
  constructor
  · intro hz
    rcases h8 m with heq | ⟨_, hop2, _⟩
    · rw [heq] at hz
      have hf := (hI m).1 hz
      unfold FreshInv at hf ⊢
      rw [heq, h2, h3, h4, h5, h6]
      exact hf
    · exact absurd hz hop2
  · intro hnz
    rcases h8 m with heq | ⟨hop1, _, hts⟩
    · rw [heq] at hnz
      obtain ⟨h, hm⟩ := (hI m).2 hnz
      refine ⟨h, ?_⟩
      unfold MachInv SnapInv at hm ⊢
      rw [h1, h2, h3, h4, h5, h6, h7, heq]
      exact hm
    · obtain ⟨h, hm⟩ := (hI m).2 hop1
      refine ⟨h, ?_⟩
      unfold MachInv SnapInv at hm ⊢
      rw [h1, h2, h3, h4, h5, h6, h7, hts]
      exact hm

theorem inv_updateMachineMetadata {s s' : State} {c : Addr} {mid : Nat}
    {uri : String} (hI : INV s) (h : updateMachineMetadata s c mid uri = .ok s') :
    INV s' := by
  unfold updateMachineMetadata at h
  dsimp only at h
  repeat' split at h
  any_goals exact Except.noConfusion h
  rw [Except.ok.injEq] at h
  subst h
  refine INV_preserved_fields s _ rfl rfl rfl rfl rfl rfl rfl ?_ hI
  intro m
  by_cases hm : m = mid
  · subst hm
    right
    rename_i hop1 hop2
    simp_all
  · left
    simp [hm]

theorem inv_setMachineStatus {s s' : State} {c : Addr} {mid : Nat}
    {active : Bool} (hI : INV s) (h : setMachineStatus s c mid active = .ok s') :
    INV s' := by
  unfold setMachineStatus at h
  dsimp only at h
  repeat' split at h
  any_goals exact Except.noConfusion h
  rw [Except.ok.injEq] at h
  subst h
  refine INV_preserved_fields s _ rfl rfl rfl rfl rfl rfl rfl ?_ hI
  intro m
  by_cases hm : m = mid
  · subst hm
    right
    rename_i hop1 hop2
    simp_all
  · left
    simp [hm]

theorem inv_transferOperator {s s' : State} {c newOp : Addr} {mid : Nat}
    (hI : INV s) (h : transferOperator s c mid newOp = .ok s') :
    INV s' := by
  unfold transferOperator at h
  dsimp only at h
  repeat' split at h
  any_goals exact Except.noConfusion h
  rw [Except.ok.injEq] at h
  subst h
  refine INV_preserved_fields s _ rfl rfl rfl rfl rfl rfl rfl ?_ hI
  intro m
  by_cases hm : m = mid
  · subst hm
    right
    rename_i hop1 hop2 hnz
    simp_all
  · left
    simp [hm]

theorem inv_setPlatformFee {s s' : State} {c : Addr} {fee : Nat}
    (hI : INV s) (h : setPlatformFee s c fee = .ok s') : INV s' := by
  unfold setPlatformFee at h
  repeat' split at h
  any_goals exact Except.noConfusion h
  rw [Except.ok.injEq] at h
  subst h
  exact INV_preserved_fields s _ rfl rfl rfl rfl rfl rfl rfl (fun m => Or.inl rfl) hI

theorem inv_setMinRevenueThreshold {s s' : State} {c : Addr} {t : Nat}
    (hI : INV s) (h : setMinRevenueThreshold s c t = .ok s') : INV s' := by
  unfold setMinRevenueThreshold at h
  repeat' split at h
  any_goals exact Except.noConfusion h
  rw [Except.ok.injEq] at h
  subst h
  exact INV_preserved_fields s _ rfl rfl rfl rfl rfl rfl rfl (fun m => Or.inl rfl) hI

theorem inv_pause {s s' : State} {c : Addr}
    (hI : INV s) (h : pause s c = .ok s') : INV s' := by
  unfold pause at h
  repeat' split at h
  any_goals exact Except.noConfusion h
  rw [Except.ok.injEq] at h
  subst h
  exact INV_preserved_fields s _ rfl rfl rfl rfl rfl rfl rfl (fun m => Or.inl rfl) hI

theorem inv_unpause {s s' : State} {c : Addr}
    (hI : INV s) (h : unpause s c = .ok s') : INV s' := by
  unfold unpause at h
  repeat' split at h
  any_goals exact Except.noConfusion h
  rw [Except.ok.injEq] at h
  subst h
  exact INV_preserved_fields s _ rfl rfl rfl rfl rfl rfl rfl (fun m => Or.inl rfl) hI



theorem inv_registerMachine {s s' : State} {c op : Addr} {nm uri : String}
    {ts now : Nat} {id : Nat} (hI : INV s)
    (h : registerMachine s c op nm uri ts now = .ok (s', id)) : INV s' := by
  unfold registerMachine at h
  dsimp only at h
  split at h
  · exact Except.noConfusion h
  rename_i hps
  split at h
  · exact Except.noConfusion h
  rename_i hop
  split at h
  · exact Except.noConfusion h
  rename_i hts
  rw [show MachineToken.mint
      { machineId := s.machineIdCounter + 1,
        owner := s.self,
        totalSupply := 0,
        balances := fun _ => 0 } s.self op ts =
      .ok
      { machineId := s.machineIdCounter + 1,
        owner := s.self,
        totalSupply := ts,
        balances := fun a => if a = op then ts else 0 } from by
    unfold MachineToken.mint
    simp [hop]] at h
  dsimp only at h
  rw [Except.ok.injEq, Prod.mk.injEq] at h
  obtain ⟨hs, hid⟩ := h
  subst hs
  intro m
  by_cases hm : m = s.machineIdCounter + 1
  · subst hm
    have hfresh : FreshInv s (s.machineIdCounter + 1) := by
      refine (hI _).1 ?_
      by_contra hnz
      obtain ⟨h0, hmv⟩ := (hI _).2 hnz
      have hle : s.machineIdCounter + 1 ≤ s.machineIdCounter := hmv.2.2.2.1
      omega
    obtain ⟨hf1, hf2, hf3, hf4, hf5⟩ := hfresh
    constructor
    · intro hz
      simp_all
    · intro _
      refine ⟨op, hop, ?_, ?_, ?_, ?_, ?_, ?_, ?_, ?_⟩
      · simpa using Nat.pos_of_ne_zero hts
      · omega
      · simp
      · simp
      · simp
      · intro u
        simp
      · intro sid h1 h2
        dsimp only at h2
        rw [hf3] at h2
        omega
      · intro sid hcond
        exact ⟨hf4 sid, fun u => hf5 sid u⟩
  · constructor
    · intro hz
      have hf := (hI m).1 (by simpa [hm] using hz)
      obtain ⟨hf1, hf2, hf3, hf4, hf5⟩ := hf
      refine ⟨?_, ?_, ?_, ?_, ?_⟩ <;> simp_all [hm]
    · intro hnz
      obtain ⟨h0, k1, k2, k3, k4, k5, k6, k7, k8, k9⟩ :=
        (hI m).2 (by simpa [hm] using hnz)
      refine ⟨h0, k1, ?_, k3, ?_, ?_, ?_, ?_, ?_, ?_⟩
      · simpa [hm] using k2
      · dsimp only
        omega
      · simpa [hm] using k5
      · simpa [hm] using k6
      · intro u
        simpa [hm] using k7 u
      · intro sid h1 h2
        have := k8 sid h1 (by simpa using h2)
        unfold SnapInv at this ⊢
        simpa [hm] using this
      · intro sid hcond
        have := k9 sid (by simpa using hcond)
        simpa [hm] using this



theorem reportRevenue_state {s s' : State} {c : Addr} {mid value now bn : Nat}
    {l : List Send} (h : reportRevenue s c mid value now bn = .ok (s', l)) :
    (s.machines mid).operator = 0 → False := by
  unfold reportRevenue at h
  dsimp only at h
  repeat' split at h
  any_goals exact Except.noConfusion h
  all_goals (intro hz; exact absurd hz (by assumption))

theorem reportRevenue_state2 {s s' : State} {c : Addr} {mid value now bn : Nat}
    {l : List Send} (h : reportRevenue s c mid value now bn = .ok (s', l)) :
    s' = { s with
      machines := fun m =>
        if m = mid then
          { s.machines mid with
            totalRevenue := (s.machines mid).totalRevenue + value,
            lastRevenueShare := now }
        else s.machines m,
      snapshotCounters := fun m =>
        if m = mid then s.snapshotCounters mid + 1 else s.snapshotCounters m,
      snapshotBlockNumbers := fun m sid =>
        if m = mid ∧ sid = s.snapshotCounters mid + 1 then bn
        else s.snapshotBlockNumbers m sid,
      shareSnapshots := fun m sid =>
        if m = mid ∧ sid = s.snapshotCounters mid + 1 then
          { snapshotId := s.snapshotCounters mid + 1,
            totalShares := (s.tokens mid).totalSupply,
            revenueAmount := value - value * s.platformFeeBps / 10000,
            distributedAmount := 0,
            completed := false }
        else s.shareSnapshots m sid,
      balanceSnapshots := fun m sid u =>
        if m = mid ∧ sid = s.snapshotCounters mid + 1 ∧
            u = (s.machines mid).operator ∧
            0 < (s.tokens mid).balanceOf (s.machines mid).operator then
          (s.tokens mid).balanceOf (s.machines mid).operator
        else s.balanceSnapshots m sid u } := by
  unfold reportRevenue at h
  dsimp only at h
  repeat' split at h
  any_goals exact Except.noConfusion h
  all_goals (rw [Except.ok.injEq, Prod.mk.injEq] at h
             obtain ⟨hs, hl⟩ := h
             exact hs.symm)

theorem inv_reportRevenue {s s' : State} {c : Addr} {mid value now bn : Nat}
    {l : List Send} (hI : INV s)
    (h : reportRevenue s c mid value now bn = .ok (s', l)) : INV s' := by
  have hop : (s.machines mid).operator ≠ 0 := fun hz => reportRevenue_state h hz
  have hs := reportRevenue_state2 h
  subst hs
  intro m
  by_cases hm : m = mid
  · subst hm
    obtain ⟨h0, k1, k2, k3, k4, k5, k6, k7, k8, k9⟩ := (hI m).2 hop
    constructor
    · intro hz
      simp_all
    · intro _
      refine ⟨h0, k1, ?_, k3, ?_, ?_, ?_, ?_, ?_, ?_⟩
      · simpa using k2
      · exact k4
      · simpa using k5
      · simpa using k6
      · intro u
        simpa using k7 u
      · intro sid h1 h2
        simp at h2
        by_cases hsid : sid = s.snapshotCounters m + 1
        · subst hsid
          have hout := k9 (s.snapshotCounters m + 1) (Or.inr (by omega))
          refine ⟨?_, ?_, ?_, ?_, ?_, ?_⟩
          · simp
          · simpa using k6
          · simp [(hout.2 h0).1]
          · simp [(hout.2 h0).1]
          · intro u _
            simpa using (hout.2 u).1
          · intro u
            dsimp only
            by_cases hu : u = (s.machines m).operator ∧
                0 < (s.tokens m).balanceOf (s.machines m).operator
            · right
              obtain ⟨rfl, _⟩ := hu
              simp_all [MachineToken.balanceOf]
            · left
              rw [if_neg]
              · exact (hout.2 u).2
              · rintro ⟨-, -, hu1, hu2⟩
                exact hu ⟨hu1, hu2⟩
        · have hin := k8 sid h1 (by omega)
          obtain ⟨j1, j2, j3, j4, j5, j6⟩ := hin
          refine ⟨?_, ?_, ?_, ?_, ?_, ?_⟩
          · simpa [hsid] using j1
          · simpa [hsid] using j2
          · simpa [hsid] using j3
          · simpa [hsid] using j4
          · intro u hu
            simpa using j5 u hu
          · intro u
            rcases j6 u with a | a
            · left
              simpa [hsid] using a
            · right
              simpa [hsid] using a
      · intro sid hcond
        simp at hcond
        have hcond2 : sid = 0 ∨ s.snapshotCounters m < sid := by
          rcases hcond with a | a
          · exact Or.inl a
          · exact Or.inr (by omega)
        have hout := k9 sid hcond2
        have hne : sid ≠ s.snapshotCounters m + 1 := by omega
        refine ⟨?_, ?_⟩
        · simpa [hne] using hout.1
        · intro u
          refine ⟨?_, ?_⟩
          · simpa using (hout.2 u).1
          · simpa [hne] using (hout.2 u).2
  · constructor
    · intro hz
      have hf := (hI m).1 (by simpa [hm] using hz)
      obtain ⟨hf1, hf2, hf3, hf4, hf5⟩ := hf
      refine ⟨?_, ?_, ?_, ?_, ?_⟩
      · simpa [hm] using hf1
      · simpa [hm] using hf2
      · simpa [hm] using hf3
      · intro sid
        simpa [hm] using hf4 sid
      · intro sid u
        have := hf5 sid u
        refine ⟨?_, ?_⟩
        · simpa [hm] using this.1
        · simpa [hm] using this.2
    · intro hnz
      obtain ⟨h0, k1, k2, k3, k4, k5, k6, k7, k8, k9⟩ :=
        (hI m).2 (by simpa [hm] using hnz)
      refine ⟨h0, k1, ?_, k3, ?_, ?_, ?_, ?_, ?_, ?_⟩
      · simpa [hm] using k2
      · simpa using k4
      · simpa [hm] using k5
      · simpa [hm] using k6
      · intro u
        simpa [hm] using k7 u
      · intro sid h1 h2
        have := k8 sid h1 (by simpa [hm] using h2)
        unfold SnapInv at this ⊢
        simpa [hm] using this
      · intro sid hcond
        have := k9 sid (by simpa [hm] using hcond)
        refine ⟨?_, fun u => ⟨?_, ?_⟩⟩
        · simpa [hm] using this.1
        · simpa [hm] using (this.2 u).1
        · simpa [hm] using (this.2 u).2



theorem rev_ne_zero_range {s : State} {m sid : Nat} (hI : INV s)
    (hrev : (s.shareSnapshots m sid).revenueAmount ≠ 0) :
    (s.machines m).operator ≠ 0 ∧ 1 ≤ sid ∧ sid ≤ s.snapshotCounters m := by
  by_cases hop : (s.machines m).operator = 0
  · have hf := (hI m).1 hop
    exact absurd (by rw [hf.2.2.2.1 sid]; rfl) hrev
  · refine ⟨hop, ?_, ?_⟩ <;>
    · obtain ⟨h0, k1, k2, k3, k4, k5, k6, k7, k8, k9⟩ := (hI m).2 hop
      have hrange : ¬(sid = 0 ∨ s.snapshotCounters m < sid) := fun hc =>
        hrev (by rw [(k9 sid hc).1]; rfl)
      push_neg at hrange
      omega

theorem inv_cacheWrite {s : State} {m sid : Nat} {u : Addr} {v : Nat}
    (hI : INV s) (h1 : 1 ≤ sid) (h2 : sid ≤ s.snapshotCounters m)
    (hv : v = (s.tokens m).balances u) : INV (cacheWrite s m sid u v) := by
  intro m2
  constructor
  · intro hz
    have hf := (hI m2).1 hz
    obtain ⟨hf1, hf2, hf3, hf4, hf5⟩ := hf
    refine ⟨hf1, hf2, hf3, hf4, ?_⟩
    intro sid2 u2
    refine ⟨(hf5 sid2 u2).1, ?_⟩
    unfold cacheWrite
    dsimp only
    by_cases hpt : m2 = m ∧ sid2 = sid ∧ u2 = u
    · obtain ⟨rfl, rfl, rfl⟩ := hpt
      -- a cached write lands on a registered machine only
      rw [hf3] at h2
      omega
    · rw [if_neg hpt]
      exact (hf5 sid2 u2).2
  · intro hnz
    obtain ⟨h0, k1, k2, k3, k4, k5, k6, k7, k8, k9⟩ := (hI m2).2 hnz
    refine ⟨h0, k1, k2, k3, k4, k5, k6, k7, ?_, ?_⟩
    · intro sid2 j1 j2
      obtain ⟨i1, i2, i3, i4, i5, i6⟩ := k8 sid2 j1 j2
      refine ⟨i1, i2, i3, i4, i5, ?_⟩
      intro u2
      unfold cacheWrite
      dsimp only
      by_cases hpt : m2 = m ∧ sid2 = sid ∧ u2 = u
      · obtain ⟨rfl, rfl, rfl⟩ := hpt
        right
        rw [if_pos ⟨rfl, rfl, rfl⟩, hv]
      · rw [if_neg hpt]
        exact i6 u2
    · intro sid2 hcond
      have hout := k9 sid2 hcond
      refine ⟨hout.1, ?_⟩
      intro u2
      refine ⟨(hout.2 u2).1, ?_⟩
      unfold cacheWrite
      dsimp only
      by_cases hpt : m2 = m ∧ sid2 = sid ∧ u2 = u
      · obtain ⟨rfl, rfl, rfl⟩ := hpt
        have hcond2 : sid2 = 0 ∨ s.snapshotCounters m2 < sid2 := hcond
        rcases hcond2 with a | a
        · omega
        · omega
      · rw [if_neg hpt]
        exact (hout.2 u2).2

theorem inv_applyClaimMark {s : State} {m sid : Nat} {u : Addr} {p : Nat}
    (hI : INV s)
    (hrev : (s.shareSnapshots m sid).revenueAmount ≠ 0)
    (hncl : s.revenueClaimed m sid u = false)
    (hbal : (s.tokens m).balances u ≠ 0)
    (hp : p = (s.shareSnapshots m sid).revenueAmount * (s.tokens m).balances u /
      (s.shareSnapshots m sid).totalShares) :
    INV (applyClaimMark s m sid u p) := by
  obtain ⟨hop, hr1, hr2⟩ := rev_ne_zero_range hI hrev
  obtain ⟨h0, k1, k2, k3, k4, k5, k6, k7, k8, k9⟩ := (hI m).2 hop
  -- the claimant is the unique holder
  have hu : u = h0 := by
    by_contra hne
    rw [k7 u, if_neg hne] at hbal
    exact hbal rfl
  subst hu
  have hbal2 : (s.tokens m).balances u = (s.machines m).totalShares := by
    rw [k7 u, if_pos rfl]
  obtain ⟨i1, i2, i3, i4, i5, i6⟩ := k8 sid hr1 hr2
  have hdist : (s.shareSnapshots m sid).distributedAmount = 0 := by
    rw [i3, hncl]
    rfl
  have hpay : p = (s.shareSnapshots m sid).revenueAmount := by
    rw [hp, hbal2, ← i2, Nat.mul_div_cancel _ (by rw [i2]; exact k2)]
  intro m2
  constructor
  · intro hz
    have hf := (hI m2).1 hz
    obtain ⟨hf1, hf2, hf3, hf4, hf5⟩ := hf
    have hm2 : m2 ≠ m := by
      intro he
      rw [he] at hz
      exact hop hz
    refine ⟨hf1, hf2, hf3, ?_, ?_⟩
    · intro sid2
      unfold applyClaimMark
      dsimp only
      rw [if_neg (by rintro ⟨a, -⟩; exact hm2 a)]
      exact hf4 sid2
    · intro sid2 u2
      unfold applyClaimMark
      dsimp only
      rw [if_neg (by rintro ⟨a, -⟩; exact hm2 a)]
      exact ⟨(hf5 sid2 u2).1, (hf5 sid2 u2).2⟩
  · intro hnz
    by_cases hm2 : m2 = m
    · subst hm2
      refine ⟨u, k1, k2, k3, k4, k5, k6, k7, ?_, ?_⟩
      · intro sid2 j1 j2
        by_cases hsid : sid2 = sid
        · subst hsid
          refine ⟨?_, ?_, ?_, ?_, ?_, ?_⟩
          · unfold applyClaimMark
            simpa using i1
          · unfold applyClaimMark
            simpa using i2
          · unfold applyClaimMark
            simp [hdist, hpay]
          · unfold applyClaimMark
            simp [hdist, hpay]
            exact Nat.pos_of_ne_zero (by simpa using hrev)
          · intro u2 hu2
            unfold applyClaimMark
            dsimp only
            rw [if_neg (by rintro ⟨-, -, a⟩; exact hu2 a)]
            exact i5 u2 hu2
          · intro u2
            unfold applyClaimMark
            dsimp only
            exact i6 u2
        · have j2b : sid2 ≤ s.snapshotCounters m2 := j2
          have htr := k8 sid2 j1 j2b
          unfold SnapInv at htr ⊢
          unfold applyClaimMark
          dsimp only
          simpa [hsid] using htr
      · intro sid2 hcond
        have hcond2 : sid2 = 0 ∨ s.snapshotCounters m2 < sid2 := hcond
        have hout := k9 sid2 hcond2
        have hsid : sid2 ≠ sid := by omega
        unfold applyClaimMark
        dsimp only
        refine ⟨?_, ?_⟩
        · simpa [hsid] using hout.1
        · intro u2
          constructor
          · simpa [hsid] using (hout.2 u2).1
          · simpa [hsid] using (hout.2 u2).2
    · obtain ⟨g0, g1, g2, g3, g4, g5, g6, g7, g8, g9⟩ :=
        (hI m2).2 (by simpa [hm2] using hnz)
      refine ⟨g0, g1, ?_, g3, ?_, ?_, ?_, ?_, ?_, ?_⟩
      · simpa using g2
      · simpa using g4
      · simpa using g5
      · simpa using g6
      · intro u2
        simpa using g7 u2
      · intro sid2 j1 j2
        have := g8 sid2 j1 (by simpa using j2)
        unfold SnapInv at this ⊢
        unfold applyClaimMark
        dsimp only
        rw [if_neg (by rintro ⟨a, -⟩; exact hm2 a)]
        simpa [hm2] using this
      · intro sid2 hcond
        have := g9 sid2 (by simpa using hcond)
        unfold applyClaimMark
        dsimp only
        rw [if_neg (by rintro ⟨a, -⟩; exact hm2 a)]
        refine ⟨this.1, ?_⟩
        intro u2
        refine ⟨?_, this.2 u2 |>.2⟩
        dsimp only
        rw [if_neg (by rintro ⟨a, -⟩; exact hm2 a)]
        exact (this.2 u2).1



theorem inv_claimRevenue {s s' : State} {c : Addr} {mid sid : Nat}
    {l : List Send} (hI : INV s)
    (h : claimRevenue s c mid sid = .ok (s', l)) : INV s' := by
  unfold claimRevenue at h
  dsimp only at h
  split at h
  · exact Except.noConfusion h
  rename_i hop
  split at h
  · exact Except.noConfusion h
  rename_i hps
  split at h
  · exact Except.noConfusion h
  rename_i hrev
  split at h
  · exact Except.noConfusion h
  rename_i hncl
  split at h
  case isTrue hst =>
    split at h
    · exact Except.noConfusion h
    rename_i hsh
    split at h
    · exact Except.noConfusion h
    rename_i hpay
    rw [Except.ok.injEq, Prod.mk.injEq] at h
    obtain ⟨hs, hl⟩ := h
    subst hs
    rw [if_pos ⟨hst, Nat.pos_of_ne_zero (by simpa using hsh)⟩]
    obtain ⟨hop2, hr1, hr2⟩ := rev_ne_zero_range hI (by simpa using hrev)
    exact inv_applyClaimMark (inv_cacheWrite hI hr1 hr2 rfl)
      (by simpa using hrev) (by simpa using hncl) (by simpa using hsh) rfl
  case isFalse hst =>
    split at h
    · exact Except.noConfusion h
    rename_i hsh
    split at h
    case isTrue hcon => exact absurd hcon.1 hst
    rename_i hpay
    rw [Except.ok.injEq, Prod.mk.injEq] at h
    obtain ⟨hs, hl⟩ := h
    subst hs
    obtain ⟨hop2, hr1, hr2⟩ := rev_ne_zero_range hI (by simpa using hrev)
    obtain ⟨h0, k1, k2, k3, k4, k5, k6, k7, k8, k9⟩ := (hI mid).2 hop2
    rcases (k8 sid hr1 hr2).2.2.2.2.2 c with a | a
    · exact absurd a hst
    · refine inv_applyClaimMark hI (by simpa using hrev) (by simpa using hncl)
        ?_ ?_
      · rw [← a]
        exact hst
      · rw [a]

theorem inv_batchClaimLoop (c : Addr) (mid : Nat) (ids : List Nat) :
    ∀ (s : State) (acc : Nat), INV s →
    INV (batchClaimLoop c mid s ids acc).1 := by
  induction ids with
  | nil =>
    intro s acc hI
    exact hI
  | cons sid rest ih =>
    intro s acc hI
    by_cases hcl : s.revenueClaimed mid sid c
    · rw [show batchClaimLoop c mid s (sid :: rest) acc =
          batchClaimLoop c mid s rest acc from by simp [batchClaimLoop, hcl]]
      exact ih s acc hI
    · by_cases hrev0 : (s.shareSnapshots mid sid).revenueAmount = 0
      · rw [show batchClaimLoop c mid s (sid :: rest) acc =
            batchClaimLoop c mid s rest acc from by
          simp [batchClaimLoop, hcl, hrev0]]
        exact ih s acc hI
      · obtain ⟨hop2, hr1, hr2⟩ := rev_ne_zero_range hI hrev0
        by_cases hst : s.balanceSnapshots mid sid c = 0
        · by_cases hv0 : (s.tokens mid).balanceOf c = 0
          · rw [show batchClaimLoop c mid s (sid :: rest) acc =
                batchClaimLoop c mid s rest acc from by
              simp [batchClaimLoop, hcl, hrev0, hst, hv0]]
            exact ih s acc hI
          · by_cases hp0 : (s.shareSnapshots mid sid).revenueAmount *
                (s.tokens mid).balanceOf c /
                (s.shareSnapshots mid sid).totalShares = 0
            · rw [show batchClaimLoop c mid s (sid :: rest) acc =
                  batchClaimLoop c mid
                    (cacheWrite s mid sid c ((s.tokens mid).balanceOf c))
                    rest acc from by
                simp [batchClaimLoop, hcl, hrev0, hst, hv0, hp0,
                  Nat.pos_of_ne_zero]]
              exact ih _ acc (inv_cacheWrite hI hr1 hr2 rfl)
            · rw [show batchClaimLoop c mid s (sid :: rest) acc =
                  batchClaimLoop c mid
                    (applyClaimMark
                      (cacheWrite s mid sid c ((s.tokens mid).balanceOf c))
                      mid sid c
                      ((s.shareSnapshots mid sid).revenueAmount *
                        (s.tokens mid).balanceOf c /
                        (s.shareSnapshots mid sid).totalShares))
                    rest
                    (acc + (s.shareSnapshots mid sid).revenueAmount *
                      (s.tokens mid).balanceOf c /
                      (s.shareSnapshots mid sid).totalShares) from by
                simp [batchClaimLoop, hcl, hrev0, hst, hv0, hp0,
                  Nat.pos_of_ne_zero]]
              refine ih _ _ (inv_applyClaimMark (inv_cacheWrite hI hr1 hr2 rfl)
                hrev0 ?_ hv0 rfl)
              simpa using hcl
        · obtain ⟨h0, k1, k2, k3, k4, k5, k6, k7, k8, k9⟩ := (hI mid).2 hop2
          rcases (k8 sid hr1 hr2).2.2.2.2.2 c with a | a
          · exact absurd a hst
          · by_cases hp0 : (s.shareSnapshots mid sid).revenueAmount *
                s.balanceSnapshots mid sid c /
                (s.shareSnapshots mid sid).totalShares = 0
            · rw [show batchClaimLoop c mid s (sid :: rest) acc =
                  batchClaimLoop c mid s rest acc from by
                simp [batchClaimLoop, hcl, hrev0, hst, hp0]]
              exact ih s acc hI
            · rw [show batchClaimLoop c mid s (sid :: rest) acc =
                  batchClaimLoop c mid
                    (applyClaimMark s mid sid c
                      ((s.shareSnapshots mid sid).revenueAmount *
                        s.balanceSnapshots mid sid c /
                        (s.shareSnapshots mid sid).totalShares))
                    rest
                    (acc + (s.shareSnapshots mid sid).revenueAmount *
                      s.balanceSnapshots mid sid c /
                      (s.shareSnapshots mid sid).totalShares) from by
                simp [batchClaimLoop, hcl, hrev0, hst, hp0]]
              refine ih _ _ (inv_applyClaimMark hI hrev0 ?_ ?_ ?_)
              · simpa using hcl
              · rw [← a]
                exact hst
              · rw [a]

theorem inv_batchClaimRevenue {s s' : State} {c : Addr} {mid : Nat}
    {ids : List Nat} {l : List Send} (hI : INV s)
    (h : batchClaimRevenue s c mid ids = .ok (s', l)) : INV s' := by
  unfold batchClaimRevenue at h
  dsimp only at h
  split at h
  · exact Except.noConfusion h
  split at h
  · exact Except.noConfusion h
  split at h
  all_goals
    (rw [Except.ok.injEq, Prod.mk.injEq] at h
     obtain ⟨hs, hl⟩ := h
     subst hs
     exact inv_batchClaimLoop c mid ids s 0 hI)

theorem inv_step {s s' : State} (hI : INV s) (h : LedgerStep s s') : INV s' := by
  cases h with
  | register _ _ _ _ _ _ _ hop => exact inv_registerMachine hI hop
  | report _ _ _ _ _ _ hop => exact inv_reportRevenue hI hop
  | claim _ _ _ _ hop => exact inv_claimRevenue hI hop
  | batch _ _ _ _ hop => exact inv_batchClaimRevenue hI hop
  | metadata _ _ _ hop => exact inv_updateMachineMetadata hI hop
  | status _ _ _ hop => exact inv_setMachineStatus hI hop
  | transferOp _ _ _ hop => exact inv_transferOperator hI hop
  | setFee _ _ hop => exact inv_setPlatformFee hI hop
  | setThreshold _ _ hop => exact inv_setMinRevenueThreshold hI hop
  | doPause _ hop => exact inv_pause hI hop
  | doUnpause _ hop => exact inv_unpause hI hop

theorem inv_reach {self owner : Addr} {s : State} (h : Reach self owner s) :
    INV s := by
  induction h with
  | refl => exact inv_init self owner
  | tail _ hstep ih => exact inv_step ih hstep



theorem reach_exReg : Reach 1 2 exReg :=
  Relation.ReflTransGen.single (LedgerStep.register 9 5 "drill" "ipfs" 1000 3 1 rfl)

theorem reach_exThr : Reach 1 2 exThr :=
  reach_exReg.tail (LedgerStep.setThreshold 2 100 rfl)

theorem reach_exRep : Reach 1 2 exRep :=
  reach_exThr.tail (LedgerStep.report 5 1 100 7 11 [(2, 2)] rfl)

theorem reach_exClaimed : Reach 1 2 exClaimed :=
  reach_exRep.tail (LedgerStep.claim 5 1 1 [(5, 98)] rfl)

theorem reach_exThr0 : Reach 1 2 exThr0 :=
  reach_exReg.tail (LedgerStep.setThreshold 2 0 rfl)

theorem reach_exRep0 : Reach 1 2 exRep0 :=
  reach_exThr0.tail (LedgerStep.report 5 1 0 7 11 [] rfl)

/-- C1 (amended): in every state reachable through the ledger's own
operations, for every created snapshot (`1 ≤ sid ≤ snapshotCounters`),
the paid-out amount never exceeds the distributable amount and, whenever
the distributable amount is positive, the completed flag is true exactly
when paid-out has reached it; a zero-distributable snapshot (reachable
once the owner sets the minimum revenue threshold to 0 and the operator
deposits 0) keeps `completed = false` even though paid-out (0) equals
distributable (0). -/
theorem C1_payout_bound {self owner : Addr} {s : State} (h : Reach self owner s)
    (m sid : Nat) (h1 : 1 ≤ sid) (h2 : sid ≤ s.snapshotCounters m) :
    (s.shareSnapshots m sid).distributedAmount ≤
      (s.shareSnapshots m sid).revenueAmount ∧
    (0 < (s.shareSnapshots m sid).revenueAmount →
      ((s.shareSnapshots m sid).completed = true ↔
        (s.shareSnapshots m sid).revenueAmount ≤
          (s.shareSnapshots m sid).distributedAmount)) ∧
    ((s.shareSnapshots m sid).revenueAmount = 0 →
      (s.shareSnapshots m sid).completed = false) := by
  have hI := inv_reach h
  by_cases hop : (s.machines m).operator = 0
  · have hf := (hI m).1 hop
    rw [hf.2.2.1] at h2
    omega
  · obtain ⟨h0, k1, k2, k3, k4, k5, k6, k7, k8, k9⟩ := (hI m).2 hop
    obtain ⟨i1, i2, i3, i4, i5, i6⟩ := k8 sid h1 h2
    refine ⟨?_, ?_, ?_⟩
    · rw [i3]
      split
      · exact le_refl _
      · exact Nat.zero_le _
    · intro hpos
      rw [i4]
      constructor
      · rintro ⟨hc, -⟩
        rw [i3, if_pos hc]
      · intro hle
        refine ⟨?_, hpos⟩
        by_contra hc
        have hd : (s.shareSnapshots m sid).distributedAmount = 0 := by
          rw [i3, if_neg hc]
        omega
    · intro hzero
      by_contra hc
      have hct : (s.shareSnapshots m sid).completed = true := by
        simpa using hc
      have := (i4.mp hct).2
      omega

/-- Counterexample for C1 as stated: after the owner lowers the revenue
threshold to 0 and the operator deposits 0 wei, snapshot 1 of machine 1
is a created snapshot in a reachable state whose paid-out amount (0) has
reached its distributable amount (0), yet `completed` is false — refuting
the claimed "iff". -/
theorem C1_counterexample :
    Reach 1 2 exRep0 ∧
    1 ≤ exRep0.snapshotCounters 1 ∧
    ¬((exRep0.shareSnapshots 1 1).completed = true ↔
      (exRep0.shareSnapshots 1 1).revenueAmount ≤
        (exRep0.shareSnapshots 1 1).distributedAmount) :=
  ⟨reach_exRep0, by decide, by decide⟩



theorem applyClaimMark_rev (t : State) (a b : Nat) (u : Addr) (p : Nat)
    (m sid : Nat) :
    ((applyClaimMark t a b u p).shareSnapshots m sid).revenueAmount =
      (t.shareSnapshots m sid).revenueAmount := by
  unfold applyClaimMark
  dsimp only
  split
  · rename_i hpt
    obtain ⟨rfl, rfl⟩ := hpt
    rfl
  · rfl

theorem applyClaimMark_claimed_mono {t : State} {a b : Nat} {v : Addr} {p : Nat}
    {m sid : Nat} {u : Addr} (hc : t.revenueClaimed m sid u = true) :
    (applyClaimMark t a b v p).revenueClaimed m sid u = true := by
  unfold applyClaimMark
  dsimp only
  split
  · rfl
  · exact hc

theorem batchLoop_claimed_mono (c : Addr) (mid : Nat) (ids : List Nat) :
    ∀ (t : State) (acc : Nat) {m sid : Nat} {u : Addr},
    t.revenueClaimed m sid u = true →
    (batchClaimLoop c mid t ids acc).1.revenueClaimed m sid u = true := by
  induction ids with
  | nil =>
    intro t acc m sid u hc
    exact hc
  | cons sid0 rest ih =>
    intro t acc m sid u hc
    unfold batchClaimLoop
    dsimp only
    repeat' split
    all_goals apply ih
    any_goals exact hc
    all_goals exact applyClaimMark_claimed_mono hc

theorem batchLoop_rev (c : Addr) (mid : Nat) (ids : List Nat) :
    ∀ (t : State) (acc : Nat) (m sid : Nat),
    ((batchClaimLoop c mid t ids acc).1.shareSnapshots m sid).revenueAmount =
      (t.shareSnapshots m sid).revenueAmount := by
  induction ids with
  | nil =>
    intro t acc m sid
    rfl
  | cons sid0 rest ih =>
    intro t acc m sid
    unfold batchClaimLoop
    dsimp only
    repeat' split
    any_goals exact ih _ _ _ _
    all_goals exact (ih _ _ _ _).trans (applyClaimMark_rev _ _ _ _ _ _ _)

theorem batchLoop_frame (c : Addr) (mid : Nat) (ids : List Nat) :
    ∀ (t : State) (acc : Nat),
    (batchClaimLoop c mid t ids acc).1.self = t.self ∧
    (batchClaimLoop c mid t ids acc).1.machines = t.machines ∧
    (batchClaimLoop c mid t ids acc).1.tokens = t.tokens ∧
    (batchClaimLoop c mid t ids acc).1.snapshotCounters = t.snapshotCounters ∧
    (batchClaimLoop c mid t ids acc).1.paused = t.paused := by
  induction ids with
  | nil =>
    intro t acc
    exact ⟨rfl, rfl, rfl, rfl, rfl⟩
  | cons sid0 rest ih =>
    intro t acc
    unfold batchClaimLoop
    dsimp only
    repeat' split
    all_goals exact ih _ _

theorem step_claimed_mono {s s' : State} (h : LedgerStep s s') {m sid : Nat}
    {u : Addr} (hc : s.revenueClaimed m sid u = true) :
    s'.revenueClaimed m sid u = true := by
  cases h with
  | register _ _ _ _ _ _ _ hop =>
    unfold registerMachine at hop
    dsimp only at hop
    repeat' split at hop
    any_goals exact Except.noConfusion hop
    all_goals
      (rw [Except.ok.injEq, Prod.mk.injEq] at hop
       obtain ⟨hs, -⟩ := hop
       subst hs
       exact hc)
  | report _ _ _ _ _ _ hop =>
    rw [reportRevenue_state2 hop]
    exact hc
  | claim _ _ _ _ hop =>
    unfold claimRevenue at hop
    dsimp only at hop
    repeat' split at hop
    any_goals exact Except.noConfusion hop
    all_goals
      (rw [Except.ok.injEq, Prod.mk.injEq] at hop
       obtain ⟨hs, -⟩ := hop
       subst hs
       exact applyClaimMark_claimed_mono hc)
  | batch _ _ _ _ hop =>
    unfold batchClaimRevenue at hop
    dsimp only at hop
    repeat' split at hop
    any_goals exact Except.noConfusion hop
    all_goals
      (rw [Except.ok.injEq, Prod.mk.injEq] at hop
       obtain ⟨hs, -⟩ := hop
       subst hs
       exact batchLoop_claimed_mono _ _ _ _ _ hc)
  | metadata _ _ _ hop =>
    unfold updateMachineMetadata at hop
    repeat' split at hop
    any_goals exact Except.noConfusion hop
    all_goals
      (rw [Except.ok.injEq] at hop
       subst hop
       exact hc)
  | status _ _ _ hop =>
    unfold setMachineStatus at hop
    repeat' split at hop
    any_goals exact Except.noConfusion hop
    all_goals
      (rw [Except.ok.injEq] at hop
       subst hop
       exact hc)
  | transferOp _ _ _ hop =>
    unfold transferOperator at hop
    repeat' split at hop
    any_goals exact Except.noConfusion hop
    all_goals
      (rw [Except.ok.injEq] at hop
       subst hop
       exact hc)
  | setFee _ _ hop =>
    unfold setPlatformFee at hop
    repeat' split at hop
    any_goals exact Except.noConfusion hop
    all_goals
      (rw [Except.ok.injEq] at hop
       subst hop
       exact hc)
  | setThreshold _ _ hop =>
    unfold setMinRevenueThreshold at hop
    repeat' split at hop
    any_goals exact Except.noConfusion hop
    all_goals
      (rw [Except.ok.injEq] at hop
       subst hop
       exact hc)
  | doPause _ hop =>
    unfold pause at hop
    repeat' split at hop
    any_goals exact Except.noConfusion hop
    all_goals
      (rw [Except.ok.injEq] at hop
       subst hop
       exact hc)
  | doUnpause _ hop =>
    unfold unpause at hop
    repeat' split at hop
    any_goals exact Except.noConfusion hop
    all_goals
      (rw [Except.ok.injEq] at hop
       subst hop
       exact hc)



theorem step_rev_stable {s s' : State} (hI : INV s) (h : LedgerStep s s')
    {m sid : Nat} (hrev : (s.shareSnapshots m sid).revenueAmount ≠ 0) :
    (s'.shareSnapshots m sid).revenueAmount =
      (s.shareSnapshots m sid).revenueAmount := by
  cases h with
  | register _ _ _ _ _ _ _ hop =>
    unfold registerMachine at hop
    dsimp only at hop
    repeat' split at hop
    any_goals exact Except.noConfusion hop
    all_goals
      (rw [Except.ok.injEq, Prod.mk.injEq] at hop
       obtain ⟨hs, -⟩ := hop
       subst hs
       rfl)
  | report _ mid _ _ _ _ hop =>
    obtain ⟨-, hr1, hr2⟩ := rev_ne_zero_range hI hrev
    rw [reportRevenue_state2 hop]
    dsimp only
    rw [if_neg]
    rintro ⟨rfl, rfl⟩
    omega
  | claim _ _ _ _ hop =>
    unfold claimRevenue at hop
    dsimp only at hop
    repeat' split at hop
    any_goals exact Except.noConfusion hop
    all_goals
      (rw [Except.ok.injEq, Prod.mk.injEq] at hop
       obtain ⟨hs, -⟩ := hop
       subst hs
       exact applyClaimMark_rev _ _ _ _ _ _ _)
  | batch _ _ _ _ hop =>
    unfold batchClaimRevenue at hop
    dsimp only at hop
    repeat' split at hop
    any_goals exact Except.noConfusion hop
    all_goals
      (rw [Except.ok.injEq, Prod.mk.injEq] at hop
       obtain ⟨hs, -⟩ := hop
       subst hs
       exact batchLoop_rev _ _ _ _ _ _ _)
  | metadata _ _ _ hop =>
    unfold updateMachineMetadata at hop
    repeat' split at hop
    any_goals exact Except.noConfusion hop
    all_goals
      (rw [Except.ok.injEq] at hop
       subst hop
       rfl)
  | status _ _ _ hop =>
    unfold setMachineStatus at hop
    repeat' split at hop
    any_goals exact Except.noConfusion hop
    all_goals
      (rw [Except.ok.injEq] at hop
       subst hop
       rfl)
  | transferOp _ _ _ hop =>
    unfold transferOperator at hop
    repeat' split at hop
    any_goals exact Except.noConfusion hop
    all_goals
      (rw [Except.ok.injEq] at hop
       subst hop
       rfl)
  | setFee _ _ hop =>
    unfold setPlatformFee at hop
    repeat' split at hop
    any_goals exact Except.noConfusion hop
    all_goals
      (rw [Except.ok.injEq] at hop
       subst hop
       rfl)
  | setThreshold _ _ hop =>
    unfold setMinRevenueThreshold at hop
    repeat' split at hop
    any_goals exact Except.noConfusion hop
    all_goals
      (rw [Except.ok.injEq] at hop
       subst hop
       rfl)
  | doPause _ hop =>
    unfold pause at hop
    repeat' split at hop
    any_goals exact Except.noConfusion hop
    all_goals
      (rw [Except.ok.injEq] at hop
       subst hop
       rfl)
  | doUnpause _ hop =>
    unfold unpause at hop
    repeat' split at hop
    any_goals exact Except.noConfusion hop
    all_goals
      (rw [Except.ok.injEq] at hop
       subst hop
       rfl)

theorem step_op_stable {s s' : State} (h : LedgerStep s s') {m : Nat}
    (hop0 : (s.machines m).operator ≠ 0) : (s'.machines m).operator ≠ 0 := by
  cases h with
  | register _ operator _ _ _ _ _ hop =>
    unfold registerMachine at hop
    dsimp only at hop
    repeat' split at hop
    any_goals exact Except.noConfusion hop
    all_goals
      (rw [Except.ok.injEq, Prod.mk.injEq] at hop
       obtain ⟨hs, -⟩ := hop
       subst hs
       dsimp only
       split
       · assumption
       · exact hop0)
  | report _ mid _ _ _ _ hop =>
    rw [reportRevenue_state2 hop]
    dsimp only
    split
    · rename_i heq
      subst heq
      simpa using hop0
    · exact hop0
  | claim _ _ _ _ hop =>
    unfold claimRevenue at hop
    dsimp only at hop
    repeat' split at hop
    any_goals exact Except.noConfusion hop
    all_goals
      (rw [Except.ok.injEq, Prod.mk.injEq] at hop
       obtain ⟨hs, -⟩ := hop
       subst hs
       exact hop0)
  | batch _ _ _ _ hop =>
    unfold batchClaimRevenue at hop
    dsimp only at hop
    repeat' split at hop
    any_goals exact Except.noConfusion hop
    all_goals
      (rw [Except.ok.injEq, Prod.mk.injEq] at hop
       obtain ⟨hs, -⟩ := hop
       subst hs
       rw [show ∀ (t : State) l a, (batchClaimLoop _ _ t l a).1.machines =
         t.machines from fun t l a => (batchLoop_frame _ _ l t a).2.1]
       exact hop0)
  | metadata _ _ _ hop =>
    unfold updateMachineMetadata at hop
    repeat' split at hop
    any_goals exact Except.noConfusion hop
    all_goals
      (rw [Except.ok.injEq] at hop
       subst hop
       dsimp only
       split
       · rename_i heq
         subst heq
         simpa using hop0
       · exact hop0)
  | status _ _ _ hop =>
    unfold setMachineStatus at hop
    repeat' split at hop
    any_goals exact Except.noConfusion hop
    all_goals
      (rw [Except.ok.injEq] at hop
       subst hop
       dsimp only
       split
       · rename_i heq
         subst heq
         simpa using hop0
       · exact hop0)
  | transferOp _ _ newOp hop =>
    unfold transferOperator at hop
    repeat' split at hop
    any_goals exact Except.noConfusion hop
    all_goals
      (rw [Except.ok.injEq] at hop
       subst hop
       dsimp only
       split
       · assumption
       · exact hop0)
  | setFee _ _ hop =>
    unfold setPlatformFee at hop
    repeat' split at hop
    any_goals exact Except.noConfusion hop
    all_goals
      (rw [Except.ok.injEq] at hop
       subst hop
       exact hop0)
  | setThreshold _ _ hop =>
    unfold setMinRevenueThreshold at hop
    repeat' split at hop
    any_goals exact Except.noConfusion hop
    all_goals
      (rw [Except.ok.injEq] at hop
       subst hop
       exact hop0)
  | doPause _ hop =>
    unfold pause at hop
    repeat' split at hop
    any_goals exact Except.noConfusion hop
    all_goals
      (rw [Except.ok.injEq] at hop
       subst hop
       exact hop0)
  | doUnpause _ hop =>
    unfold unpause at hop
    repeat' split at hop
    any_goals exact Except.noConfusion hop
    all_goals
      (rw [Except.ok.injEq] at hop
       subst hop
       exact hop0)



theorem claimRevenue_ok_facts {s s' : State} {c : Addr} {m sid : Nat}
    {l : List Send} (h : claimRevenue s c m sid = .ok (s', l)) :
    (s'.machines m).operator ≠ 0 ∧ s'.revenueClaimed m sid c = true ∧
    (s'.shareSnapshots m sid).revenueAmount ≠ 0 := by
  unfold claimRevenue at h
  dsimp only at h
  repeat' split at h
  any_goals exact Except.noConfusion h
  all_goals
    (rw [Except.ok.injEq, Prod.mk.injEq] at h
     obtain ⟨hs, -⟩ := h
     subst hs
     refine ⟨by assumption, ?_, ?_⟩
     · unfold applyClaimMark
       dsimp only
       rw [if_pos ⟨rfl, rfl, rfl⟩]
     · rw [applyClaimMark_rev]
       assumption)

/-- C2: after one successful claim by a claimant on a snapshot, every
later claim call by the same claimant on the same (machine, snapshot), in
any state reachable from that point in which the ledger is not paused
(pausing pre-empts claims with its own error — see C10), fails with
`AlreadyClaimed` and leaves all state unchanged (a revert rolls the
transaction back). -/
theorem C2_at_most_once {self owner : Addr} {s s' t : State} {c : Addr}
    {m sid : Nat} {l : List Send}
    (hre : Reach self owner s)
    (hclaim : claimRevenue s c m sid = .ok (s', l))
    (ht : Relation.ReflTransGen LedgerStep s' t)
    (hpause : t.paused = false) :
    claimRevenue t c m sid = .error .AlreadyClaimed ∧
    afterOr t (claimRevenue t c m sid) = t := by
  obtain ⟨b1, b2, b3⟩ := claimRevenue_ok_facts hclaim
  have hI' : INV s' := inv_claimRevenue (inv_reach hre) hclaim
  have key : t.revenueClaimed m sid c = true ∧
      (t.shareSnapshots m sid).revenueAmount ≠ 0 ∧
      (t.machines m).operator ≠ 0 ∧ INV t := by
    clear hpause
    induction ht with
    | refl => exact ⟨b2, b3, b1, hI'⟩
    | tail _ hstep ih =>
      obtain ⟨p1, p2, p3, p4⟩ := ih
      refine ⟨step_claimed_mono hstep p1, ?_, step_op_stable hstep p3,
        inv_step p4 hstep⟩
      rw [step_rev_stable p4 hstep p2]
      exact p2
  obtain ⟨f1, f2, f3, -⟩ := key
  have he : claimRevenue t c m sid = .error .AlreadyClaimed := by
    unfold claimRevenue
    simp [f1, f2, f3, hpause]
  refine ⟨he, ?_⟩
  rw [he]
  rfl

/-- Witness for C2: the operator claimed snapshot 1; claiming again
immediately fails with `AlreadyClaimed` and changes nothing. -/
theorem C2_at_most_once_witness :
    claimRevenue exClaimed 5 1 1 = .error .AlreadyClaimed ∧
    afterOr exClaimed (claimRevenue exClaimed 5 1 1) = exClaimed :=
  C2_at_most_once reach_exRep rfl Relation.ReflTransGen.refl rfl



theorem step_shares_stable {s s' : State} (hI : INV s) (h : LedgerStep s s')
    {m : Nat} (hop0 : (s.machines m).operator ≠ 0) :
    (s'.machines m).totalShares = (s.machines m).totalShares ∧
    (s'.tokens m).totalSupply = (s.tokens m).totalSupply := by
  have hle : m ≤ s.machineIdCounter := ((hI m).2 hop0).choose_spec.2.2.2.1
  cases h with
  | register _ operator _ _ _ _ _ hop =>
    unfold registerMachine at hop
    dsimp only at hop
    repeat' split at hop
    any_goals exact Except.noConfusion hop
    all_goals
      (rw [Except.ok.injEq, Prod.mk.injEq] at hop
       obtain ⟨hs, -⟩ := hop
       subst hs
       constructor <;>
         (dsimp only
          rw [if_neg (by omega)]))
  | report _ mid _ _ _ _ hop =>
    rw [reportRevenue_state2 hop]
    dsimp only
    constructor
    · split
      · rename_i heq
        subst heq
        rfl
      · rfl
    · rfl
  | claim _ _ _ _ hop =>
    unfold claimRevenue at hop
    dsimp only at hop
    repeat' split at hop
    any_goals exact Except.noConfusion hop
    all_goals
      (rw [Except.ok.injEq, Prod.mk.injEq] at hop
       obtain ⟨hs, -⟩ := hop
       subst hs
       exact ⟨rfl, rfl⟩)
  | batch _ _ _ _ hop =>
    unfold batchClaimRevenue at hop
    dsimp only at hop
    repeat' split at hop
    any_goals exact Except.noConfusion hop
    all_goals
      (rw [Except.ok.injEq, Prod.mk.injEq] at hop
       obtain ⟨hs, -⟩ := hop
       subst hs
       rw [show ∀ (t : State) lst a, (batchClaimLoop _ _ t lst a).1.machines =
         t.machines from fun t lst a => (batchLoop_frame _ _ lst t a).2.1]
       rw [show ∀ (t : State) lst a, (batchClaimLoop _ _ t lst a).1.tokens =
         t.tokens from fun t lst a => (batchLoop_frame _ _ lst t a).2.2.1]
       exact ⟨rfl, rfl⟩)
  | metadata _ _ _ hop =>
    unfold updateMachineMetadata at hop
    repeat' split at hop
    any_goals exact Except.noConfusion hop
    all_goals
      (rw [Except.ok.injEq] at hop
       subst hop
       refine ⟨?_, rfl⟩
       dsimp only
       split
       · rename_i heq
         subst heq
         rfl
       · rfl)
  | status _ _ _ hop =>
    unfold setMachineStatus at hop
    repeat' split at hop
    any_goals exact Except.noConfusion hop
    all_goals
      (rw [Except.ok.injEq] at hop
       subst hop
       refine ⟨?_, rfl⟩
       dsimp only
       split
       · rename_i heq
         subst heq
         rfl
       · rfl)
  | transferOp _ _ _ hop =>
    unfold transferOperator at hop
    repeat' split at hop
    any_goals exact Except.noConfusion hop
    all_goals
      (rw [Except.ok.injEq] at hop
       subst hop
       refine ⟨?_, rfl⟩
       dsimp only
       split
       · rename_i heq
         subst heq
         rfl
       · rfl)
  | setFee _ _ hop =>
    unfold setPlatformFee at hop
    repeat' split at hop
    any_goals exact Except.noConfusion hop
    all_goals
      (rw [Except.ok.injEq] at hop
       subst hop
       exact ⟨rfl, rfl⟩)
  | setThreshold _ _ hop =>
    unfold setMinRevenueThreshold at hop
    repeat' split at hop
    any_goals exact Except.noConfusion hop
    all_goals
      (rw [Except.ok.injEq] at hop
       subst hop
       exact ⟨rfl, rfl⟩)
  | doPause _ hop =>
    unfold pause at hop
    repeat' split at hop
    any_goals exact Except.noConfusion hop
    all_goals
      (rw [Except.ok.injEq] at hop
       subst hop
       exact ⟨rfl, rfl⟩)
  | doUnpause _ hop =>
    unfold unpause at hop
    repeat' split at hop
    any_goals exact Except.noConfusion hop
    all_goals
      (rw [Except.ok.injEq] at hop
       subst hop
       exact ⟨rfl, rfl⟩)

/-- C9: in every state reachable through the ledger's own operations, a
registered machine's token supply equals the `totalShares` recorded in
the machine record, the token is owned by the ledger contract itself, and
every created snapshot stores that same share count; moreover no ledger
step changes a registered machine's `totalShares` or its token's
`totalSupply` (the single mint happens at registration and nothing ever
burns), and `MachineToken.mint` and `MachineToken.burn` revert for any
caller other than the token's owner. -/
theorem C9_supply_conservation :
    (∀ (self owner : Addr) (s : State), Reach self owner s →
      ∀ m, (s.machines m).operator ≠ 0 →
        (s.tokens m).totalSupply = (s.machines m).totalShares ∧
        (s.tokens m).owner = s.self ∧
        (∀ sid, 1 ≤ sid → sid ≤ s.snapshotCounters m →
          (s.shareSnapshots m sid).totalShares = (s.machines m).totalShares)) ∧
    (∀ (self owner : Addr) (s s' : State), Reach self owner s →
      LedgerStep s s' → ∀ m, (s.machines m).operator ≠ 0 →
        (s'.machines m).totalShares = (s.machines m).totalShares ∧
        (s'.tokens m).totalSupply = (s.tokens m).totalSupply) ∧
    (∀ (tk : MachineToken) (caller to2 : Addr) (amt : Nat), caller ≠ tk.owner →
      MachineToken.mint tk caller to2 amt = .error .OwnableUnauthorizedAccount ∧
      MachineToken.burn tk caller to2 amt = .error .OwnableUnauthorizedAccount) := by
  refine ⟨?_, ?_, ?_⟩
  · intro self owner s hre m hop
    obtain ⟨h0, k1, k2, k3, k4, k5, k6, k7, k8, k9⟩ := (inv_reach hre m).2 hop
    exact ⟨k6, k5, fun sid j1 j2 => (k8 sid j1 j2).2.1⟩
  · intro self owner s s' hre hstep m hop
    exact step_shares_stable (inv_reach hre) hstep hop
  · intro tk caller to2 amt hc
    constructor
    · unfold MachineToken.mint
      rw [if_pos hc]
    · unfold MachineToken.burn
      rw [if_pos hc]



/-- C4 (amended): a revenue deposit records exactly one holder balance
at snapshot time — the operator's: after `reportRevenue`, the new
snapshot's cache entry for the operator equals the operator's current
token balance and the entry for every other holder is empty; every
claimant's balance is otherwise captured lazily, when that holder first
claims — a successful `claimRevenue` leaves the cache entry for the
claimant equal to the resolved (nonzero) balance. -/
theorem C4_lazy_capture {self owner : Addr} {s s' : State} {c : Addr}
    {m value now bn : Nat} {l : List Send}
    (hre : Reach self owner s)
    (h : reportRevenue s c m value now bn = .ok (s', l)) :
    (∀ u, u ≠ (s.machines m).operator →
      s'.balanceSnapshots m (s.snapshotCounters m + 1) u = 0) ∧
    s'.balanceSnapshots m (s.snapshotCounters m + 1) ((s.machines m).operator) =
      (s.tokens m).balanceOf ((s.machines m).operator) ∧
    (∀ (t t' : State) (u : Addr) (m2 sid : Nat) (l2 : List Send),
      claimRevenue t u m2 sid = .ok (t', l2) →
      t'.balanceSnapshots m2 sid u = resolvedShares t m2 sid u ∧
      resolvedShares t m2 sid u ≠ 0) := by
  have hop : (s.machines m).operator ≠ 0 := fun hz => reportRevenue_state h hz
  have hI := inv_reach hre
  obtain ⟨h0, k1, k2, k3, k4, k5, k6, k7, k8, k9⟩ := (hI m).2 hop
  have hout := k9 (s.snapshotCounters m + 1) (Or.inr (by omega))
  rw [reportRevenue_state2 h]
  refine ⟨?_, ?_, ?_⟩
  · intro u hu
    dsimp only
    rw [if_neg]
    · exact (hout.2 u).2
    · rintro ⟨-, -, a, -⟩
      exact hu a
  · dsimp only
    by_cases hb : 0 < (s.tokens m).balanceOf ((s.machines m).operator)
    · rw [if_pos ⟨rfl, rfl, rfl, hb⟩]
    · rw [if_neg (by rintro ⟨-, -, -, a⟩; exact hb a)]
      rw [(hout.2 _).2]
      omega
  · intro t t' u m2 sid l2 hcl
    unfold claimRevenue at hcl
    dsimp only at hcl
    split at hcl
    · exact Except.noConfusion hcl
    split at hcl
    · exact Except.noConfusion hcl
    split at hcl
    · exact Except.noConfusion hcl
    split at hcl
    · exact Except.noConfusion hcl
    split at hcl
    case isTrue hst =>
      split at hcl
      · exact Except.noConfusion hcl
      rename_i hsh
      split at hcl
      · exact Except.noConfusion hcl
      rw [Except.ok.injEq, Prod.mk.injEq] at hcl
      obtain ⟨hs, -⟩ := hcl
      subst hs
      rw [if_pos ⟨hst, Nat.pos_of_ne_zero (by simpa using hsh)⟩]
      constructor
      · show (cacheWrite t m2 sid u ((t.tokens m2).balanceOf u)).balanceSnapshots
          m2 sid u = resolvedShares t m2 sid u
        unfold cacheWrite resolvedShares
        dsimp only
        rw [if_pos ⟨rfl, rfl, rfl⟩, if_pos hst]
      · unfold resolvedShares
        rw [if_pos hst]
        simpa using hsh
    case isFalse hst =>
      split at hcl
      · exact Except.noConfusion hcl
      rename_i hsh
      split at hcl
      case isTrue hcon => exact absurd hcon.1 hst
      rw [Except.ok.injEq, Prod.mk.injEq] at hcl
      obtain ⟨hs, -⟩ := hcl
      subst hs
      constructor
      · show t.balanceSnapshots m2 sid u = resolvedShares t m2 sid u
        unfold resolvedShares
        rw [if_neg hst]
      · unfold resolvedShares
        rw [if_neg hst]
        exact hst

/-- Witness for C1: the deposited state with snapshot 1 (98 wei
distributable, nothing paid out yet). -/
theorem C1_payout_bound_witness :
    ((exRep.shareSnapshots 1 1).distributedAmount ≤
      (exRep.shareSnapshots 1 1).revenueAmount ∧
    (0 < (exRep.shareSnapshots 1 1).revenueAmount →
      ((exRep.shareSnapshots 1 1).completed = true ↔
        (exRep.shareSnapshots 1 1).revenueAmount ≤
          (exRep.shareSnapshots 1 1).distributedAmount)) ∧
    ((exRep.shareSnapshots 1 1).revenueAmount = 0 →
      (exRep.shareSnapshots 1 1).completed = false)) :=
  C1_payout_bound reach_exRep 1 1 (by decide) (by decide)

/-- Witness for C4: the 100-wei deposit on machine 1 caches only the
operator's balance for snapshot 1. -/
theorem C4_lazy_capture_witness :
    ((∀ u, u ≠ (exThr.machines 1).operator →
      exRep.balanceSnapshots 1 (exThr.snapshotCounters 1 + 1) u = 0) ∧
    exRep.balanceSnapshots 1 (exThr.snapshotCounters 1 + 1)
        ((exThr.machines 1).operator) =
      (exThr.tokens 1).balanceOf ((exThr.machines 1).operator) ∧
    (∀ (t t' : State) (u : Addr) (m2 sid : Nat) (l2 : List Send),
      claimRevenue t u m2 sid = .ok (t', l2) →
      t'.balanceSnapshots m2 sid u = resolvedShares t m2 sid u ∧
      resolvedShares t m2 sid u ≠ 0)) :=
  @C4_lazy_capture 1 2 exThr exRep 5 1 100 7 11 [(2, 2)] reach_exThr rfl

/-- Witness for C9: machine 1 right after registration, one admin step,
and a mint/burn attempt by the stranger address 9. -/
theorem C9_supply_conservation_witness :
    ((exReg.tokens 1).totalSupply = (exReg.machines 1).totalShares ∧
     (exReg.tokens 1).owner = exReg.self ∧
     (∀ sid, 1 ≤ sid → sid ≤ exReg.snapshotCounters 1 →
       (exReg.shareSnapshots 1 sid).totalShares = (exReg.machines 1).totalShares)) ∧
    ((exThr.machines 1).totalShares = (exReg.machines 1).totalShares ∧
     (exThr.tokens 1).totalSupply = (exReg.tokens 1).totalSupply) ∧
    (MachineToken.mint (exReg.tokens 1) 9 7 10 =
      .error .OwnableUnauthorizedAccount ∧
     MachineToken.burn (exReg.tokens 1) 9 7 10 =
      .error .OwnableUnauthorizedAccount) :=
  ⟨C9_supply_conservation.1 1 2 exReg reach_exReg 1 (by decide),
   C9_supply_conservation.2.1 1 2 exReg exThr reach_exReg (LedgerStep.setThreshold 2 100 rfl) 1
     (by decide),
   C9_supply_conservation.2.2 (exReg.tokens 1) 9 7 10 (by decide)⟩

/-- Counterexample for C4 as stated: immediately after the deposit that
creates snapshot 1 — before anyone claims — the per-claimant balance
cache already holds the operator's balance 1000, so `depositRevenue` does
not leave the cache empty for every holder. -/
theorem C4_counterexample :
    Reach 1 2 exRep ∧
    exRep.balanceSnapshots 1 1 5 = 1000 ∧
    exRep.balanceSnapshots 1 1 5 ≠ 0 :=
  ⟨reach_exRep, by decide, by decide⟩

end MachineDeFi
